import Mathlib

/-!
Verification of the document-extractor backend:
the LLM-response recovery parser (`extractor.py, parse_llm_response`),
the in-memory document store (`storage.py`), and the document lifecycle
(`routes/documents.py`).

The JSON parser below models Python's `json.loads` (strict mode) on the
standard JSON grammar: values, objects, arrays, strings with escapes,
numbers per Python's NUMBER_RE, and the error classes whose messages the
recovery cascade inspects (`Expecting ...`, `Unterminated string ...`,
`Extra data`, `Invalid ...`).  The non-standard `NaN/Infinity` literals
accepted by Python are not modelled; none of the analysed texts contain
them.  Numbers are represented as rationals.
-/

/-- JSON values as produced by `json.loads`: objects are modelled as
insertion-ordered association lists.  A number lexeme is kept as the exact
decimal `m * 10 ^ e` it denotes (unnormalised; no claim below compares
numbers obtained from different lexemes, so canonicity is not needed). -/
inductive Json where
  | null : Json
  | bool : Bool → Json
  | num : Int → Int → Json
  | str : String → Json
  | arr : List Json → Json
  | obj : List (String × Json) → Json

/-- Error classes of `json.JSONDecodeError`, keyed by the message text the
recovery cascade tests with substring checks. -/
inductive JErr where
  | expectingValue : JErr
  | expectingPropertyName : JErr
  | expectingColon : JErr
  | expectingComma : JErr
  | unterminatedString : JErr
  | invalidEscape : JErr
  | invalidUnicodeEscape : JErr
  | invalidControl : JErr
  | extraData : JErr
  | noFuel : JErr
  deriving DecidableEq

/-- Whether `str(e)` contains `Expecting` or `Unterminated`
(the truncation test at extractor.py line 250). -/
def looksTruncated : JErr → Bool
  | .expectingValue => true
  | .expectingPropertyName => true
  | .expectingColon => true
  | .expectingComma => true
  | .unterminatedString => true
  | _ => false

/-- JSON whitespace as in `json.decoder` (`' \t\n\r'`). -/
def isJsonWs (c : Char) : Bool :=
  c = ' ' ∨ c = '\t' ∨ c = '\n' ∨ c = '\r'

/-- Drop leading JSON whitespace. -/
def jsonWsSkip (l : List Char) : List Char :=
  l.dropWhile isJsonWs

/-- Decimal value of a digit run. -/
def digitsVal (ds : List Char) : Nat :=
  ds.foldl (fun a c => 10 * a + (c.toNat - 48)) 0

/-- Value of a hex digit. -/
def hexVal (c : Char) : Nat :=
  if c.isDigit then c.toNat - 48
  else if 'a' ≤ c ∧ c ≤ 'f' then c.toNat - 87
  else c.toNat - 55

def isHexDigit (c : Char) : Bool :=
  c.isDigit ∨ ('a' ≤ c ∧ c ≤ 'f') ∨ ('A' ≤ c ∧ c ≤ 'F')

/-- Single-character escapes of `json.decoder.BACKSLASH`. -/
def escMap (c : Char) : Option Char :=
  if c = '"' then some '"'
  else if c = '\\' then some '\\'
  else if c = '/' then some '/'
  else if c = 'b' then some (Char.ofNat 8)
  else if c = 'f' then some (Char.ofNat 12)
  else if c = 'n' then some '\n'
  else if c = 'r' then some '\r'
  else if c = 't' then some '\t'
  else none

/-- Body of a JSON string after the opening quote (`py_scanstring`):
returns the decoded content and the text after the closing quote. -/
def strBody (acc : List Char) : List Char → Except JErr (List Char × List Char)
  | [] => .error .unterminatedString
  | c :: rest =>
    if c = '"' then .ok (acc, rest)
    else if c = '\\' then
      match rest with
      | [] => .error .unterminatedString
      | e :: rest2 =>
        if e = 'u' then
          match rest2 with
          | h1 :: h2 :: h3 :: h4 :: rest3 =>
            if isHexDigit h1 ∧ isHexDigit h2 ∧ isHexDigit h3 ∧ isHexDigit h4 then
              strBody (acc ++ [Char.ofNat (((hexVal h1 * 16 + hexVal h2) * 16 + hexVal h3) * 16 + hexVal h4)]) rest3
            else .error .invalidUnicodeEscape
          | _ => .error .invalidUnicodeEscape
        else
          match escMap e with
          | some d => strBody (acc ++ [d]) rest2
          | none => .error .invalidEscape
    else if c.toNat < 32 then .error .invalidControl
    else strBody (acc ++ [c]) rest

/-- Fractional part per `(\.\d+)?`: consumed only when a digit follows the dot. -/
def fracSplit (l : List Char) : List Char × List Char :=
  match l with
  | x :: d :: t =>
    if x = '.' ∧ d.isDigit then ((d :: t).takeWhile Char.isDigit, (d :: t).dropWhile Char.isDigit)
    else ([], x :: d :: t)
  | [x] => ([], [x])
  | [] => ([], [])

/-- Exponent part per `([eE][-+]?\d+)?`: returns
(present, negative, digits, rest). -/
def expSplit (l : List Char) : Bool × Bool × List Char × List Char :=
  match l with
  | e :: s1 :: rest2 =>
    if e = 'e' ∨ e = 'E' then
      if s1 = '+' ∨ s1 = '-' then
        (match rest2 with
         | d :: _ =>
           if d.isDigit then
             (true, decide (s1 = '-'), rest2.takeWhile Char.isDigit, rest2.dropWhile Char.isDigit)
           else (false, false, [], e :: s1 :: rest2)
         | [] => (false, false, [], e :: s1 :: rest2))
      else if s1.isDigit then
        (true, false, (s1 :: rest2).takeWhile Char.isDigit, (s1 :: rest2).dropWhile Char.isDigit)
      else (false, false, [], e :: s1 :: rest2)
    else (false, false, [], e :: s1 :: rest2)
  | [e] => (false, false, [], [e])
  | [] => (false, false, [], [])

/-- Assemble the decimal value `m * 10 ^ e` of a matched number. -/
def numVal (neg : Bool) (ip : Nat) (fracDs : List Char) (hasExp expNeg : Bool) (expDs : List Char) : Int × Int :=
  let m0 : Int := (ip * 10 ^ fracDs.length + digitsVal fracDs : Nat)
  let m : Int := if neg then -m0 else m0
  let e : Int :=
    (if hasExp then (if expNeg then -(digitsVal expDs : Int) else (digitsVal expDs : Int)) else 0)
      - (fracDs.length : Int)
  (m, e)

/-- The integer-fraction-exponent tail of a number token after the
optional sign. -/
def numCore (neg : Bool) : List Char → Except JErr (Json × List Char)
  | [] => .error .expectingValue
  | d :: r1 =>
    if d = '0' then
      .ok (.num (numVal neg 0 (fracSplit r1).1 (expSplit (fracSplit r1).2).1
            (expSplit (fracSplit r1).2).2.1 (expSplit (fracSplit r1).2).2.2.1).1
          (numVal neg 0 (fracSplit r1).1 (expSplit (fracSplit r1).2).1
            (expSplit (fracSplit r1).2).2.1 (expSplit (fracSplit r1).2).2.2.1).2,
        (expSplit (fracSplit r1).2).2.2.2)
    else if d.isDigit then
      .ok (.num (numVal neg (digitsVal ((d :: r1).takeWhile Char.isDigit))
            (fracSplit ((d :: r1).dropWhile Char.isDigit)).1
            (expSplit (fracSplit ((d :: r1).dropWhile Char.isDigit)).2).1
            (expSplit (fracSplit ((d :: r1).dropWhile Char.isDigit)).2).2.1
            (expSplit (fracSplit ((d :: r1).dropWhile Char.isDigit)).2).2.2.1).1
          (numVal neg (digitsVal ((d :: r1).takeWhile Char.isDigit))
            (fracSplit ((d :: r1).dropWhile Char.isDigit)).1
            (expSplit (fracSplit ((d :: r1).dropWhile Char.isDigit)).2).1
            (expSplit (fracSplit ((d :: r1).dropWhile Char.isDigit)).2).2.1
            (expSplit (fracSplit ((d :: r1).dropWhile Char.isDigit)).2).2.2.1).2,
        (expSplit (fracSplit ((d :: r1).dropWhile Char.isDigit)).2).2.2.2)
    else .error .expectingValue

/-- Number token following Python's `NUMBER_RE`
`(-?(?:0|[1-9]\d*))(\.\d+)?([eE][-+]?\d+)?`; fails as `Expecting value`
when the regex does not match at this position. -/
def parseNumberTok (l : List Char) : Except JErr (Json × List Char) :=
  match l with
  | [] => .error .expectingValue
  | c :: r => if c = '-' then numCore true r else numCore false (c :: r)

mutual

/-- Scan one JSON value (`py_make_scanner`'s `_scan_once` plus the
whitespace skip its callers perform); fuel bounds the recursion depth. -/
def parseValue : Nat → List Char → Except JErr (Json × List Char)
  | 0, _ => .error .noFuel
  | f + 1, l =>
    match jsonWsSkip l with
    | [] => .error .expectingValue
    | c :: rest =>
      if c = '{' then parseObjectBody f rest
      else if c = '[' then parseArrayBody f rest
      else if c = '"' then
        match strBody [] rest with
        | .ok (s, r) => .ok (.str (String.mk s), r)
        | .error e => .error e
      else if c = 't' then
        match rest with
        | c1 :: c2 :: c3 :: rr =>
          if c1 = 'r' ∧ c2 = 'u' ∧ c3 = 'e' then .ok (.bool true, rr)
          else .error .expectingValue
        | _ => .error .expectingValue
      else if c = 'f' then
        match rest with
        | c1 :: c2 :: c3 :: c4 :: rr =>
          if c1 = 'a' ∧ c2 = 'l' ∧ c3 = 's' ∧ c4 = 'e' then .ok (.bool false, rr)
          else .error .expectingValue
        | _ => .error .expectingValue
      else if c = 'n' then
        match rest with
        | c1 :: c2 :: c3 :: rr =>
          if c1 = 'u' ∧ c2 = 'l' ∧ c3 = 'l' then .ok (.null, rr)
          else .error .expectingValue
        | _ => .error .expectingValue
      else if c = '-' ∨ c.isDigit then parseNumberTok (c :: rest)
      else .error .expectingValue

/-- Object body after the opening brace (`JSONObject`). -/
def parseObjectBody : Nat → List Char → Except JErr (Json × List Char)
  | 0, _ => .error .noFuel
  | f + 1, l =>
    match jsonWsSkip l with
    | [] => .error .expectingPropertyName
    | c :: rest =>
      if c = '}' then .ok (.obj [], rest)
      else if c = '"' then parseMembers f rest []
      else .error .expectingPropertyName

/-- Members of an object, positioned just after a key's opening quote. -/
def parseMembers : Nat → List Char → List (String × Json) → Except JErr (Json × List Char)
  | 0, _, _ => .error .noFuel
  | f + 1, l, acc =>
    match strBody [] l with
    | .error e => .error e
    | .ok (k, r) =>
      match jsonWsSkip r with
      | [] => .error .expectingColon
      | c2 :: r2 =>
        if c2 = ':' then
          match parseValue f r2 with
          | .error e => .error e
          | .ok (v, r3) =>
            match jsonWsSkip r3 with
            | [] => .error .expectingComma
            | c4 :: r4 =>
              if c4 = ',' then
                (match jsonWsSkip r4 with
                 | c5 :: r5 =>
                   if c5 = '"' then parseMembers f r5 (acc ++ [(String.mk k, v)])
                   else .error .expectingPropertyName
                 | [] => .error .expectingPropertyName)
              else if c4 = '}' then .ok (.obj (acc ++ [(String.mk k, v)]), r4)
              else .error .expectingComma
        else .error .expectingColon

/-- Array body after the opening bracket (`JSONArray`). -/
def parseArrayBody : Nat → List Char → Except JErr (Json × List Char)
  | 0, _ => .error .noFuel
  | f + 1, l =>
    match jsonWsSkip l with
    | [] => parseElems f l []
    | c :: rest =>
      if c = ']' then .ok (.arr [], rest)
      else parseElems f l []

/-- Elements of a non-empty array, positioned at a value. -/
def parseElems : Nat → List Char → List Json → Except JErr (Json × List Char)
  | 0, _, _ => .error .noFuel
  | f + 1, l, acc =>
    match parseValue f l with
    | .error e => .error e
    | .ok (v, r) =>
      match jsonWsSkip r with
      | [] => .error .expectingComma
      | c2 :: r2 =>
        if c2 = ',' then parseElems f r2 (acc ++ [v])
        else if c2 = ']' then .ok (.arr (acc ++ [v]), r2)
        else .error .expectingComma

end

/-- Model of `json.loads`: scan one value, then require only whitespace to
remain (`Extra data` otherwise).  The fuel `3 * length + 3` dominates the
recursion depth, which grows by at most three per consumed character. -/
def loads (l : List Char) : Except JErr Json :=
  match parseValue (3 * l.length + 3) l with
  | .error e => .error e
  | .ok (v, r) =>
    match jsonWsSkip r with
    | [] => .ok v
    | _ :: _ => .error .extraData

example : loads "1".data = .ok (.num 1 0) := by rfl

example : loads "\x7b\"a\": 1\x7d".data = .ok (.obj [("a", .num 1 0)]) := by rfl

example : loads "\x7b\"a\": 42.5\x7d".data = .ok (.obj [("a", .num 425 (-1))]) := by rfl

example : loads "\x7b\"a\": 1".data = .error .expectingComma := by rfl

example : loads "\x7b\"a\": \"x\x7d\", \"b\":".data = .error .expectingValue := by rfl

example : loads "\x7b\"a\": 1\x7d  x".data = .error .extraData := by rfl

example : loads "[1, -2.5e2, \"s\", true, false, null, []]".data =
    .ok (.arr [.num 1 0, .num (-25) 1, .str "s", .bool true, .bool false, .null, .arr []]) := by rfl

/-! The recovery cascade of `parse_llm_response` (extractor.py 194-287). -/

/-- ASCII whitespace for `str.strip()` and the regex class `\s`. -/
def isPyWs (c : Char) : Bool :=
  c = ' ' ∨ c = '\t' ∨ c = '\n' ∨ c = '\r' ∨ c = Char.ofNat 11 ∨ c = Char.ofNat 12

/-- Model of `str.strip()`. -/
def pyStrip (l : List Char) : List Char :=
  ((l.dropWhile isPyWs).reverse.dropWhile isPyWs).reverse

/-- The backtick character. -/
def btick : Char := Char.ofNat 96

/-- Test for `\s*` followed by a triple backtick (the close of the fenced
pattern, with the greedy `\s*` backtracking resolved: the fence must sit at
the first non-whitespace position). -/
def fenceAfter (l : List Char) : Bool :=
  match l.dropWhile isPyWs with
  | c1 :: c2 :: c3 :: _ => c1 = btick ∧ c2 = btick ∧ c3 = btick
  | _ => false

/-- Non-greedy scan of `(\{.*?\})\s*` before the closing fence: the group
ends at the first closing brace from which the fence test succeeds. -/
def groupScan (acc : List Char) : List Char → Option (List Char)
  | [] => none
  | c :: rest =>
    if c = '}' ∧ fenceAfter rest then some (acc ++ ['}'])
    else groupScan (acc ++ [c]) rest

/-- The optional `(?:json)?` tag. -/
def dropJsonTag (l : List Char) : List Char :=
  match l with
  | 'j' :: 's' :: 'o' :: 'n' :: r => r
  | _ => l

/-- Attempt the fenced-block pattern anchored at this position. -/
def fencedAt (l : List Char) : Option (List Char) :=
  match l with
  | c1 :: c2 :: c3 :: rest =>
    if c1 = btick ∧ c2 = btick ∧ c3 = btick then
      match (dropJsonTag rest).dropWhile isPyWs with
      | '{' :: body => groupScan ['{'] body
      | _ => none
    else none
  | _ => none

/-- Leftmost match of the fenced-block pattern, as `re.search` finds it
(extractor.py line 213). -/
def fencedMatch : List Char → Option (List Char)
  | [] => none
  | c :: rest =>
    match fencedAt (c :: rest) with
    | some g => some g
    | none => fencedMatch rest

/-- Scan to the first closing brace, inclusive. -/
def upToClose (acc : List Char) : List Char → Option (List Char)
  | [] => none
  | c :: rest => if c = '}' then some (acc ++ ['}']) else upToClose (acc ++ [c]) rest

/-- The non-greedy `\{.*?\}` match (extractor.py line 221): from the first
opening brace to the first closing brace after it. -/
def firstBraceSeg (l : List Char) : Option (List Char) :=
  match l.dropWhile (fun c => !(c == '{')) with
  | '{' :: rest => upToClose ['{'] rest
  | _ => none

/-- The loop of extractor.py lines 238-243: append `missing - attempt`
closing braces for `attempt = 0, 1, ...`, returning the first parse that
succeeds. -/
def completionLoop (cand : List Char) : Nat → Option Json
  | 0 => none
  | k + 1 =>
    match loads (cand ++ List.replicate (k + 1) '}') with
    | .ok v => some v
    | .error _ => completionLoop cand k

/-- Strategy 4's brace completion (extractor.py lines 234-243), applied to
the text from the first opening brace onward. -/
def tryBraceCompletion (cand : List Char) : Option Json :=
  if cand.count '}' < cand.count '{' then
    completionLoop cand (cand.count '{' - cand.count '}')
  else none

/-- The depth scan of extractor.py lines 252-261: index of the first
closing brace at which the running brace count returns to zero. -/
def firstDepthZero : List Char → Int → Nat → Option Nat
  | [], _, _ => none
  | c :: rest, d, i =>
    if c = '{' then firstDepthZero rest (d + 1) (i + 1)
    else if c = '}' then
      (if d - 1 = 0 then some i else firstDepthZero rest (d - 1) (i + 1))
    else firstDepthZero rest d (i + 1)

/-- Key membership in a parsed object (`'k' in parsed`). -/
def hasKey (v : Json) (k : String) : Bool :=
  match v with
  | .obj ms => ms.any (fun p => p.1 == k)
  | _ => false

/-- The defaulting `parsed['sales_order_details'] = []` on a dict without
that key appends the pair in insertion order. -/
def addEmptyDetails (v : Json) : Json :=
  match v with
  | .obj ms => .obj (ms ++ [("sales_order_details", .arr [])])
  | x => x

/-- Strategy 5's partial-object extraction (extractor.py lines 251-273):
parse up to the first depth-zero position and keep the result only when it
contains the header key, defaulting the details key when absent. -/
def depthRecover (cand : List Char) : Option Json :=
  match firstDepthZero cand 0 0 with
  | none => none
  | some p =>
    if 0 < p then
      match loads (cand.take (p + 1)) with
      | .ok v =>
        if hasKey v "sales_order_header" then
          some (if hasKey v "sales_order_details" then v else addEmptyDetails v)
        else none
      | .error _ => none
    else none

/-- Strategies 4 and 5 combined (extractor.py lines 228-273), which share
the suffix starting at the first opening brace. -/
def strat45 (t : List Char) : Option Json :=
  let cand := t.dropWhile (fun c => !(c == '{'))
  if cand = [] then none
  else
    match tryBraceCompletion cand with
    | some v => some v
    | none =>
      match loads cand with
      | .ok v => some v
      | .error e => if looksTruncated e then depthRecover cand else none

/-- The literal part of the last-resort pattern. -/
def headerLit : List Char := "\"sales_order_header\"".data

/-- Consume a literal, returning the rest. -/
def matchLit : List Char → List Char → Option (List Char)
  | [], l => some l
  | _, [] => none
  | p :: ps, c :: cs => if c = p then matchLit ps cs else none

/-- The pattern `"sales_order_header"\s*:\s*\{[^}]*\}` anchored at this
position; returns the matched span. -/
def headerAt (l : List Char) : Option (List Char) :=
  match matchLit headerLit l with
  | none => none
  | some r1 =>
    let wsA := r1.takeWhile isPyWs
    match r1.dropWhile isPyWs with
    | ':' :: r2 =>
      let wsB := r2.takeWhile isPyWs
      match r2.dropWhile isPyWs with
      | '{' :: r3 =>
        let body := r3.takeWhile (fun c => !(c == '}'))
        (match r3.dropWhile (fun c => !(c == '}')) with
         | '}' :: _ => some (headerLit ++ wsA ++ [':'] ++ wsB ++ ['{'] ++ body ++ ['}'])
         | _ => none)
      | _ => none
    | _ => none

/-- Leftmost match of the last-resort pattern (extractor.py line 276). -/
def headerSearch : List Char → Option (List Char)
  | [] => none
  | c :: rest =>
    match headerAt (c :: rest) with
    | some m => some m
    | none => headerSearch rest

/-- Strategy 6 (extractor.py lines 276-283): wrap the matched header in a
minimal object with an empty details list. -/
def strat6 (t : List Char) : Option Json :=
  match headerSearch t with
  | none => none
  | some m =>
    match loads ('{' :: m ++ ", \"sales_order_details\": []\x7d".data) with
    | .ok v => some v
    | .error _ => none

/-- `loads` as an attempt. -/
def loadsOpt (l : List Char) : Option Json :=
  match loads l with
  | .ok v => some v
  | .error _ => none

/-- Strategy 2: fenced code block (extractor.py lines 213-218). -/
def strat2 (t : List Char) : Option Json :=
  match fencedMatch t with
  | some g => loadsOpt g
  | none => none

/-- Strategy 3: first non-greedy brace span (extractor.py lines 221-226). -/
def strat3 (t : List Char) : Option Json :=
  match firstBraceSeg t with
  | some seg => loadsOpt seg
  | none => none

/-- Failures of `parse_llm_response`: the empty-response guard
(extractor.py line 201) and the final unparsable error carrying a preview
of at most 500 characters (lines 285-287). -/
inductive PErr where
  | emptyResponse : PErr
  | unparsable : List Char → PErr

/-- The strictly ordered recovery cascade: the first strategy that yields
a value wins. -/
def attemptCascade (t : List Char) : Option Json :=
  (loadsOpt t).orElse fun _ =>
    (strat2 t).orElse fun _ =>
      (strat3 t).orElse fun _ =>
        (strat45 t).orElse fun _ => strat6 t

/-- Model of `parse_llm_response` (extractor.py lines 194-287): the empty
guard, then the recovery cascade over the stripped response text. -/
def parse_llm_response (l : List Char) : Except PErr Json :=
  if pyStrip l = [] then .error .emptyResponse
  else
    match attemptCascade (pyStrip l) with
    | some v => .ok v
    | none => .error (.unparsable ((pyStrip l).take 500))

/-! Cascade selection lemmas. -/

lemma parse_llm_ok (l : List Char) (v : Json) (hne : pyStrip l ≠ [])
    (h : attemptCascade (pyStrip l) = some v) : parse_llm_response l = .ok v := by
  unfold parse_llm_response
  rw [if_neg hne, h]

lemma parse_llm_fail (l : List Char) (hne : pyStrip l ≠ [])
    (h : attemptCascade (pyStrip l) = none) :
    parse_llm_response l = .error (.unparsable ((pyStrip l).take 500)) := by
  unfold parse_llm_response
  rw [if_neg hne, h]

lemma attemptCascade_of_strat1 (t : List Char) (v : Json)
    (h1 : loadsOpt t = some v) : attemptCascade t = some v := by
  unfold attemptCascade
  rw [h1]
  rfl

lemma attemptCascade_of_strat2 (t : List Char) (v : Json)
    (h1 : loadsOpt t = none) (h2 : strat2 t = some v) : attemptCascade t = some v := by
  unfold attemptCascade
  rw [h1, h2]
  rfl

lemma attemptCascade_of_strat3 (t : List Char) (v : Json)
    (h1 : loadsOpt t = none) (h2 : strat2 t = none) (h3 : strat3 t = some v) :
    attemptCascade t = some v := by
  unfold attemptCascade
  rw [h1, h2, h3]
  rfl

lemma attemptCascade_of_strat45 (t : List Char) (v : Json)
    (h1 : loadsOpt t = none) (h2 : strat2 t = none) (h3 : strat3 t = none)
    (h4 : strat45 t = some v) : attemptCascade t = some v := by
  unfold attemptCascade
  rw [h1, h2, h3, h4]
  rfl

lemma attemptCascade_of_strat6 (t : List Char) (v : Json)
    (h1 : loadsOpt t = none) (h2 : strat2 t = none) (h3 : strat3 t = none)
    (h4 : strat45 t = none) (h6 : strat6 t = some v) : attemptCascade t = some v := by
  unfold attemptCascade
  rw [h1, h2, h3, h4, h6]
  rfl

lemma attemptCascade_none (t : List Char)
    (h1 : loadsOpt t = none) (h2 : strat2 t = none) (h3 : strat3 t = none)
    (h4 : strat45 t = none) (h5 : strat6 t = none) : attemptCascade t = none := by
  unfold attemptCascade
  rw [h1, h2, h3, h4, h5]
  rfl

/-! The document model (models.py), the in-memory store (storage.py), and
the processing lifecycle (routes/documents.py).  The store's lock makes
each operation atomic; operations are therefore modelled as sequential
state transformers. -/

/-- A document record with the fields set by `Document.__init__`. -/
structure Document where
  id : String
  filename : String
  file_path : String
  file_type : String
  file_size : Nat
  status : String
  uploaded_at : String
  processed_at : Option String
  error_message : Option String
  extracted_data : Option Json
  sales_order_header_id : Option String

/-- Values assignable to document fields in an update mapping. -/
inductive FieldVal where
  | vs : String → FieldVal
  | vn : Nat → FieldVal
  | vos : Option String → FieldVal
  | voj : Option Json → FieldVal

def setIdF (d : Document) (v : FieldVal) : Document :=
  match v with | .vs x => {d with id := x} | _ => d

def setFilenameF (d : Document) (v : FieldVal) : Document :=
  match v with | .vs x => {d with filename := x} | _ => d

def setFilePathF (d : Document) (v : FieldVal) : Document :=
  match v with | .vs x => {d with file_path := x} | _ => d

def setFileTypeF (d : Document) (v : FieldVal) : Document :=
  match v with | .vs x => {d with file_type := x} | _ => d

def setFileSizeF (d : Document) (v : FieldVal) : Document :=
  match v with | .vn x => {d with file_size := x} | _ => d

def setStatusF (d : Document) (v : FieldVal) : Document :=
  match v with | .vs x => {d with status := x} | _ => d

def setUploadedAtF (d : Document) (v : FieldVal) : Document :=
  match v with | .vs x => {d with uploaded_at := x} | _ => d

def setProcessedAtF (d : Document) (v : FieldVal) : Document :=
  match v with | .vos x => {d with processed_at := x} | _ => d

def setErrorMessageF (d : Document) (v : FieldVal) : Document :=
  match v with | .vos x => {d with error_message := x} | _ => d

def setExtractedDataF (d : Document) (v : FieldVal) : Document :=
  match v with | .voj x => {d with extracted_data := x} | _ => d

def setSalesOrderIdF (d : Document) (v : FieldVal) : Document :=
  match v with | .vos x => {d with sales_order_header_id := x} | _ => d

/-- One `setattr(doc, key, value)` guarded by `hasattr(doc, key)`
(storage.py lines 44-46): a key naming no document attribute is ignored.
The update mappings the routes pass are well-typed per field, so a value
of the wrong shape for a known field is also ignored. -/
def setField (d : Document) (key : String) (v : FieldVal) : Document :=
  if key = "id" then setIdF d v
  else if key = "filename" then setFilenameF d v
  else if key = "file_path" then setFilePathF d v
  else if key = "file_type" then setFileTypeF d v
  else if key = "file_size" then setFileSizeF d v
  else if key = "status" then setStatusF d v
  else if key = "uploaded_at" then setUploadedAtF d v
  else if key = "processed_at" then setProcessedAtF d v
  else if key = "error_message" then setErrorMessageF d v
  else if key = "extracted_data" then setExtractedDataF d v
  else if key = "sales_order_header_id" then setSalesOrderIdF d v
  else d

/-- The `for key, value in updates.items(): ...` merge loop. -/
def applyUpdates (d : Document) (u : List (String × FieldVal)) : Document :=
  u.foldl (fun d p => setField d p.1 p.2) d

/-- The store state: the insertion-ordered document dict and the
incremental id counter (storage.py lines 12-15). -/
structure Storage where
  docs : List (String × Document)
  nextId : Nat

/-- Dictionary lookup. -/
def dictGet (m : List (String × Document)) (k : String) : Option Document :=
  match m.find? (fun p => p.1 == k) with
  | some p => some p.2
  | none => none

/-- Dictionary assignment: overwrite in place, or append a fresh key in
insertion order. -/
def dictPut (m : List (String × Document)) (k : String) (v : Document) : List (String × Document) :=
  match m with
  | [] => [(k, v)]
  | p :: rest => if p.1 = k then (k, v) :: rest else p :: dictPut rest k v

/-- A fresh store (`_next_id = 1`). -/
def emptyStorage : Storage := ⟨[], 1⟩

/-- `create_document` (storage.py lines 24-31): assign `str(_next_id)`
when the id is unset or the placeholder, then store by id. -/
def create_document (st : Storage) (d : Document) : Document × Storage :=
  if d.id = "" ∨ d.id = "0" then
    let d2 := {d with id := Nat.repr st.nextId}
    (d2, ⟨dictPut st.docs (Nat.repr st.nextId) d2, st.nextId + 1⟩)
  else (d, ⟨dictPut st.docs d.id d, st.nextId⟩)

/-- `get_document` (storage.py lines 33-36). -/
def get_document (st : Storage) (k : String) : Option Document :=
  dictGet st.docs k

/-- `update_document` (storage.py lines 38-47): `None` when absent,
otherwise the field-merge loop applied to the stored record. -/
def update_document (st : Storage) (k : String) (u : List (String × FieldVal)) : Option Document × Storage :=
  match dictGet st.docs k with
  | none => (none, st)
  | some d =>
    let d2 := applyUpdates d u
    (some d2, ⟨dictPut st.docs k d2, st.nextId⟩)

/-- `get_document_by_sales_order_id` (storage.py lines 54-60): first match
in insertion order. -/
def get_document_by_sales_order_id (st : Storage) (soid : String) : Option Document :=
  match st.docs.find? (fun p => p.2.sales_order_header_id == some soid) with
  | some p => some p.2
  | none => none

/-- `_find_document_by_id` (routes/documents.py lines 330-337): search by
sales-order id first, then by document id. -/
def find_document_by_id (st : Storage) (k : String) : Option Document :=
  match get_document_by_sales_order_id st k with
  | some d => some d
  | none => get_document st k

/-- The lookup of `serve_document_file` (app.py line 44), written there as
`get_document_by_sales_order_id(id) or get_document(id)`. -/
def serve_document_lookup (st : Storage) (k : String) : Option Document :=
  match get_document_by_sales_order_id st k with
  | some d => some d
  | none => get_document st k

/-- The record built by the upload route (routes/documents.py lines
165-173) together with the `Document.__init__` defaults. -/
def mkUploadDocument (fn fp ft : String) (sz : Nat) (ts : String) : Document :=
  ⟨"0", fn, fp, ft, sz, "uploaded", ts, none, none, none, none⟩

/-- The record built by `_create_error_document` (routes/documents.py
lines 342-348) together with the `Document.__init__` defaults. -/
def mkErrorDocument (fn msg ts : String) : Document :=
  ⟨"0", fn, "", "", 0, "error", ts, none, some msg, none, none⟩

/-- The update dict of routes/documents.py lines 54-56. -/
def processingUpdate : List (String × FieldVal) :=
  [("status", .vs "processing")]

/-- The update dict of routes/documents.py lines 74-79. -/
def completedUpdate (soid : String) (j : Json) (ts : String) : List (String × FieldVal) :=
  [("sales_order_header_id", .vos (some soid)), ("extracted_data", .voj (some j)),
   ("status", .vs "completed"), ("processed_at", .vos (some ts))]

/-- The update dict of routes/documents.py lines 90-94. -/
def errorUpdate (msg ts : String) : List (String × FieldVal) :=
  [("status", .vs "error"), ("error_message", .vos (some msg)),
   ("processed_at", .vos (some ts))]

/-- The status values `process_document` writes, in order: `processing`,
then `completed` on successful extraction or `error` on any failure. -/
def processTrace (outcome : Except String Json) : List String :=
  ["processing", match outcome with | .ok _ => "completed" | .error _ => "error"]

/-- The full status sequence of one upload: a validated file is created
`uploaded` and processed synchronously; a rejected file is created
directly in `error` by `_create_error_document`. -/
def uploadTrace (valid : Bool) (outcome : Except String Json) : List String :=
  if valid then "uploaded" :: processTrace outcome else ["error"]

/-- A status history observed at any point of a document's lifetime: a
non-empty prefix of some complete upload flow. -/
def ObservableTrace (h : List String) : Prop :=
  ∃ valid outcome n, 0 < n ∧ h = (uploadTrace valid outcome).take n

/-- Document state after creation by the upload route. -/
def uploadDoc0 (fn fp ft : String) (sz : Nat) (ts : String) : Document :=
  mkUploadDocument fn fp ft sz ts

/-- Document state after the `processing` update. -/
def uploadDoc1 (fn fp ft : String) (sz : Nat) (ts : String) : Document :=
  applyUpdates (uploadDoc0 fn fp ft sz ts) processingUpdate

/-- Document state after the terminal update of `process_document`. -/
def uploadDoc2 (fn fp ft : String) (sz : Nat) (ts : String)
    (outcome : Except String Json) (soid ts2 : String) : Document :=
  match outcome with
  | .ok j => applyUpdates (uploadDoc1 fn fp ft sz ts) (completedUpdate soid j ts2)
  | .error m => applyUpdates (uploadDoc1 fn fp ft sz ts) (errorUpdate m ts2)

/-- A document state reachable through the system's operations: the three
stages of the upload-and-process flow, or the validation-error creation. -/
def ReachableDoc (d : Document) : Prop :=
  (∃ fn fp ft sz ts, d = uploadDoc0 fn fp ft sz ts) ∨
  (∃ fn fp ft sz ts, d = uploadDoc1 fn fp ft sz ts) ∨
  (∃ fn fp ft sz ts o soid ts2, d = uploadDoc2 fn fp ft sz ts o soid ts2) ∨
  (∃ fn msg ts, d = mkErrorDocument fn msg ts)

/-- N successive `create_document` calls against a fresh store. -/
def createSeq (ds : Nat → Document) : Nat → Storage
  | 0 => emptyStorage
  | n + 1 => (create_document (createSeq ds n) (ds n)).2
/-! Frame lemmas: `setField` leaves every field other than the named one
unchanged, hence so does the merge loop. -/

lemma setField_id (d : Document) (key : String) (v : FieldVal) (h : key ≠ "id") :
    (setField d key v).id = d.id := by
  unfold setField
  by_cases h1 : key = "id"
  · exact absurd h1 h
  rw [if_neg h1]
  by_cases h2 : key = "filename"
  · rw [if_pos h2]; cases v <;> rfl
  rw [if_neg h2]
  by_cases h3 : key = "file_path"
  · rw [if_pos h3]; cases v <;> rfl
  rw [if_neg h3]
  by_cases h4 : key = "file_type"
  · rw [if_pos h4]; cases v <;> rfl
  rw [if_neg h4]
  by_cases h5 : key = "file_size"
  · rw [if_pos h5]; cases v <;> rfl
  rw [if_neg h5]
  by_cases h6 : key = "status"
  · rw [if_pos h6]; cases v <;> rfl
  rw [if_neg h6]
  by_cases h7 : key = "uploaded_at"
  · rw [if_pos h7]; cases v <;> rfl
  rw [if_neg h7]
  by_cases h8 : key = "processed_at"
  · rw [if_pos h8]; cases v <;> rfl
  rw [if_neg h8]
  by_cases h9 : key = "error_message"
  · rw [if_pos h9]; cases v <;> rfl
  rw [if_neg h9]
  by_cases h10 : key = "extracted_data"
  · rw [if_pos h10]; cases v <;> rfl
  rw [if_neg h10]
  by_cases h11 : key = "sales_order_header_id"
  · rw [if_pos h11]; cases v <;> rfl
  rw [if_neg h11]

lemma setField_filename (d : Document) (key : String) (v : FieldVal) (h : key ≠ "filename") :
    (setField d key v).filename = d.filename := by
  unfold setField
  by_cases h1 : key = "id"
  · rw [if_pos h1]; cases v <;> rfl
  rw [if_neg h1]
  by_cases h2 : key = "filename"
  · exact absurd h2 h
  rw [if_neg h2]
  by_cases h3 : key = "file_path"
  · rw [if_pos h3]; cases v <;> rfl
  rw [if_neg h3]
  by_cases h4 : key = "file_type"
  · rw [if_pos h4]; cases v <;> rfl
  rw [if_neg h4]
  by_cases h5 : key = "file_size"
  · rw [if_pos h5]; cases v <;> rfl
  rw [if_neg h5]
  by_cases h6 : key = "status"
  · rw [if_pos h6]; cases v <;> rfl
  rw [if_neg h6]
  by_cases h7 : key = "uploaded_at"
  · rw [if_pos h7]; cases v <;> rfl
  rw [if_neg h7]
  by_cases h8 : key = "processed_at"
  · rw [if_pos h8]; cases v <;> rfl
  rw [if_neg h8]
  by_cases h9 : key = "error_message"
  · rw [if_pos h9]; cases v <;> rfl
  rw [if_neg h9]
  by_cases h10 : key = "extracted_data"
  · rw [if_pos h10]; cases v <;> rfl
  rw [if_neg h10]
  by_cases h11 : key = "sales_order_header_id"
  · rw [if_pos h11]; cases v <;> rfl
  rw [if_neg h11]

lemma setField_filePath (d : Document) (key : String) (v : FieldVal) (h : key ≠ "file_path") :
    (setField d key v).file_path = d.file_path := by
  unfold setField
  by_cases h1 : key = "id"
  · rw [if_pos h1]; cases v <;> rfl
  rw [if_neg h1]
  by_cases h2 : key = "filename"
  · rw [if_pos h2]; cases v <;> rfl
  rw [if_neg h2]
  by_cases h3 : key = "file_path"
  · exact absurd h3 h
  rw [if_neg h3]
  by_cases h4 : key = "file_type"
  · rw [if_pos h4]; cases v <;> rfl
  rw [if_neg h4]
  by_cases h5 : key = "file_size"
  · rw [if_pos h5]; cases v <;> rfl
  rw [if_neg h5]
  by_cases h6 : key = "status"
  · rw [if_pos h6]; cases v <;> rfl
  rw [if_neg h6]
  by_cases h7 : key = "uploaded_at"
  · rw [if_pos h7]; cases v <;> rfl
  rw [if_neg h7]
  by_cases h8 : key = "processed_at"
  · rw [if_pos h8]; cases v <;> rfl
  rw [if_neg h8]
  by_cases h9 : key = "error_message"
  · rw [if_pos h9]; cases v <;> rfl
  rw [if_neg h9]
  by_cases h10 : key = "extracted_data"
  · rw [if_pos h10]; cases v <;> rfl
  rw [if_neg h10]
  by_cases h11 : key = "sales_order_header_id"
  · rw [if_pos h11]; cases v <;> rfl
  rw [if_neg h11]

lemma setField_fileType (d : Document) (key : String) (v : FieldVal) (h : key ≠ "file_type") :
    (setField d key v).file_type = d.file_type := by
  unfold setField
  by_cases h1 : key = "id"
  · rw [if_pos h1]; cases v <;> rfl
  rw [if_neg h1]
  by_cases h2 : key = "filename"
  · rw [if_pos h2]; cases v <;> rfl
  rw [if_neg h2]
  by_cases h3 : key = "file_path"
  · rw [if_pos h3]; cases v <;> rfl
  rw [if_neg h3]
  by_cases h4 : key = "file_type"
  · exact absurd h4 h
  rw [if_neg h4]
  by_cases h5 : key = "file_size"
  · rw [if_pos h5]; cases v <;> rfl
  rw [if_neg h5]
  by_cases h6 : key = "status"
  · rw [if_pos h6]; cases v <;> rfl
  rw [if_neg h6]
  by_cases h7 : key = "uploaded_at"
  · rw [if_pos h7]; cases v <;> rfl
  rw [if_neg h7]
  by_cases h8 : key = "processed_at"
  · rw [if_pos h8]; cases v <;> rfl
  rw [if_neg h8]
  by_cases h9 : key = "error_message"
  · rw [if_pos h9]; cases v <;> rfl
  rw [if_neg h9]
  by_cases h10 : key = "extracted_data"
  · rw [if_pos h10]; cases v <;> rfl
  rw [if_neg h10]
  by_cases h11 : key = "sales_order_header_id"
  · rw [if_pos h11]; cases v <;> rfl
  rw [if_neg h11]

lemma setField_fileSize (d : Document) (key : String) (v : FieldVal) (h : key ≠ "file_size") :
    (setField d key v).file_size = d.file_size := by
  unfold setField
  by_cases h1 : key = "id"
  · rw [if_pos h1]; cases v <;> rfl
  rw [if_neg h1]
  by_cases h2 : key = "filename"
  · rw [if_pos h2]; cases v <;> rfl
  rw [if_neg h2]
  by_cases h3 : key = "file_path"
  · rw [if_pos h3]; cases v <;> rfl
  rw [if_neg h3]
  by_cases h4 : key = "file_type"
  · rw [if_pos h4]; cases v <;> rfl
  rw [if_neg h4]
  by_cases h5 : key = "file_size"
  · exact absurd h5 h
  rw [if_neg h5]
  by_cases h6 : key = "status"
  · rw [if_pos h6]; cases v <;> rfl
  rw [if_neg h6]
  by_cases h7 : key = "uploaded_at"
  · rw [if_pos h7]; cases v <;> rfl
  rw [if_neg h7]
  by_cases h8 : key = "processed_at"
  · rw [if_pos h8]; cases v <;> rfl
  rw [if_neg h8]
  by_cases h9 : key = "error_message"
  · rw [if_pos h9]; cases v <;> rfl
  rw [if_neg h9]
  by_cases h10 : key = "extracted_data"
  · rw [if_pos h10]; cases v <;> rfl
  rw [if_neg h10]
  by_cases h11 : key = "sales_order_header_id"
  · rw [if_pos h11]; cases v <;> rfl
  rw [if_neg h11]

lemma setField_status (d : Document) (key : String) (v : FieldVal) (h : key ≠ "status") :
    (setField d key v).status = d.status := by
  unfold setField
  by_cases h1 : key = "id"
  · rw [if_pos h1]; cases v <;> rfl
  rw [if_neg h1]
  by_cases h2 : key = "filename"
  · rw [if_pos h2]; cases v <;> rfl
  rw [if_neg h2]
  by_cases h3 : key = "file_path"
  · rw [if_pos h3]; cases v <;> rfl
  rw [if_neg h3]
  by_cases h4 : key = "file_type"
  · rw [if_pos h4]; cases v <;> rfl
  rw [if_neg h4]
  by_cases h5 : key = "file_size"
  · rw [if_pos h5]; cases v <;> rfl
  rw [if_neg h5]
  by_cases h6 : key = "status"
  · exact absurd h6 h
  rw [if_neg h6]
  by_cases h7 : key = "uploaded_at"
  · rw [if_pos h7]; cases v <;> rfl
  rw [if_neg h7]
  by_cases h8 : key = "processed_at"
  · rw [if_pos h8]; cases v <;> rfl
  rw [if_neg h8]
  by_cases h9 : key = "error_message"
  · rw [if_pos h9]; cases v <;> rfl
  rw [if_neg h9]
  by_cases h10 : key = "extracted_data"
  · rw [if_pos h10]; cases v <;> rfl
  rw [if_neg h10]
  by_cases h11 : key = "sales_order_header_id"
  · rw [if_pos h11]; cases v <;> rfl
  rw [if_neg h11]

lemma setField_uploadedAt (d : Document) (key : String) (v : FieldVal) (h : key ≠ "uploaded_at") :
    (setField d key v).uploaded_at = d.uploaded_at := by
  unfold setField
  by_cases h1 : key = "id"
  · rw [if_pos h1]; cases v <;> rfl
  rw [if_neg h1]
  by_cases h2 : key = "filename"
  · rw [if_pos h2]; cases v <;> rfl
  rw [if_neg h2]
  by_cases h3 : key = "file_path"
  · rw [if_pos h3]; cases v <;> rfl
  rw [if_neg h3]
  by_cases h4 : key = "file_type"
  · rw [if_pos h4]; cases v <;> rfl
  rw [if_neg h4]
  by_cases h5 : key = "file_size"
  · rw [if_pos h5]; cases v <;> rfl
  rw [if_neg h5]
  by_cases h6 : key = "status"
  · rw [if_pos h6]; cases v <;> rfl
  rw [if_neg h6]
  by_cases h7 : key = "uploaded_at"
  · exact absurd h7 h
  rw [if_neg h7]
  by_cases h8 : key = "processed_at"
  · rw [if_pos h8]; cases v <;> rfl
  rw [if_neg h8]
  by_cases h9 : key = "error_message"
  · rw [if_pos h9]; cases v <;> rfl
  rw [if_neg h9]
  by_cases h10 : key = "extracted_data"
  · rw [if_pos h10]; cases v <;> rfl
  rw [if_neg h10]
  by_cases h11 : key = "sales_order_header_id"
  · rw [if_pos h11]; cases v <;> rfl
  rw [if_neg h11]

lemma setField_processedAt (d : Document) (key : String) (v : FieldVal) (h : key ≠ "processed_at") :
    (setField d key v).processed_at = d.processed_at := by
  unfold setField
  by_cases h1 : key = "id"
  · rw [if_pos h1]; cases v <;> rfl
  rw [if_neg h1]
  by_cases h2 : key = "filename"
  · rw [if_pos h2]; cases v <;> rfl
  rw [if_neg h2]
  by_cases h3 : key = "file_path"
  · rw [if_pos h3]; cases v <;> rfl
  rw [if_neg h3]
  by_cases h4 : key = "file_type"
  · rw [if_pos h4]; cases v <;> rfl
  rw [if_neg h4]
  by_cases h5 : key = "file_size"
  · rw [if_pos h5]; cases v <;> rfl
  rw [if_neg h5]
  by_cases h6 : key = "status"
  · rw [if_pos h6]; cases v <;> rfl
  rw [if_neg h6]
  by_cases h7 : key = "uploaded_at"
  · rw [if_pos h7]; cases v <;> rfl
  rw [if_neg h7]
  by_cases h8 : key = "processed_at"
  · exact absurd h8 h
  rw [if_neg h8]
  by_cases h9 : key = "error_message"
  · rw [if_pos h9]; cases v <;> rfl
  rw [if_neg h9]
  by_cases h10 : key = "extracted_data"
  · rw [if_pos h10]; cases v <;> rfl
  rw [if_neg h10]
  by_cases h11 : key = "sales_order_header_id"
  · rw [if_pos h11]; cases v <;> rfl
  rw [if_neg h11]

lemma setField_errorMessage (d : Document) (key : String) (v : FieldVal) (h : key ≠ "error_message") :
    (setField d key v).error_message = d.error_message := by
  unfold setField
  by_cases h1 : key = "id"
  · rw [if_pos h1]; cases v <;> rfl
  rw [if_neg h1]
  by_cases h2 : key = "filename"
  · rw [if_pos h2]; cases v <;> rfl
  rw [if_neg h2]
  by_cases h3 : key = "file_path"
  · rw [if_pos h3]; cases v <;> rfl
  rw [if_neg h3]
  by_cases h4 : key = "file_type"
  · rw [if_pos h4]; cases v <;> rfl
  rw [if_neg h4]
  by_cases h5 : key = "file_size"
  · rw [if_pos h5]; cases v <;> rfl
  rw [if_neg h5]
  by_cases h6 : key = "status"
  · rw [if_pos h6]; cases v <;> rfl
  rw [if_neg h6]
  by_cases h7 : key = "uploaded_at"
  · rw [if_pos h7]; cases v <;> rfl
  rw [if_neg h7]
  by_cases h8 : key = "processed_at"
  · rw [if_pos h8]; cases v <;> rfl
  rw [if_neg h8]
  by_cases h9 : key = "error_message"
  · exact absurd h9 h
  rw [if_neg h9]
  by_cases h10 : key = "extracted_data"
  · rw [if_pos h10]; cases v <;> rfl
  rw [if_neg h10]
  by_cases h11 : key = "sales_order_header_id"
  · rw [if_pos h11]; cases v <;> rfl
  rw [if_neg h11]

lemma setField_extractedData (d : Document) (key : String) (v : FieldVal) (h : key ≠ "extracted_data") :
    (setField d key v).extracted_data = d.extracted_data := by
  unfold setField
  by_cases h1 : key = "id"
  · rw [if_pos h1]; cases v <;> rfl
  rw [if_neg h1]
  by_cases h2 : key = "filename"
  · rw [if_pos h2]; cases v <;> rfl
  rw [if_neg h2]
  by_cases h3 : key = "file_path"
  · rw [if_pos h3]; cases v <;> rfl
  rw [if_neg h3]
  by_cases h4 : key = "file_type"
  · rw [if_pos h4]; cases v <;> rfl
  rw [if_neg h4]
  by_cases h5 : key = "file_size"
  · rw [if_pos h5]; cases v <;> rfl
  rw [if_neg h5]
  by_cases h6 : key = "status"
  · rw [if_pos h6]; cases v <;> rfl
  rw [if_neg h6]
  by_cases h7 : key = "uploaded_at"
  · rw [if_pos h7]; cases v <;> rfl
  rw [if_neg h7]
  by_cases h8 : key = "processed_at"
  · rw [if_pos h8]; cases v <;> rfl
  rw [if_neg h8]
  by_cases h9 : key = "error_message"
  · rw [if_pos h9]; cases v <;> rfl
  rw [if_neg h9]
  by_cases h10 : key = "extracted_data"
  · exact absurd h10 h
  rw [if_neg h10]
  by_cases h11 : key = "sales_order_header_id"
  · rw [if_pos h11]; cases v <;> rfl
  rw [if_neg h11]

lemma setField_salesOrderId (d : Document) (key : String) (v : FieldVal) (h : key ≠ "sales_order_header_id") :
    (setField d key v).sales_order_header_id = d.sales_order_header_id := by
  unfold setField
  by_cases h1 : key = "id"
  · rw [if_pos h1]; cases v <;> rfl
  rw [if_neg h1]
  by_cases h2 : key = "filename"
  · rw [if_pos h2]; cases v <;> rfl
  rw [if_neg h2]
  by_cases h3 : key = "file_path"
  · rw [if_pos h3]; cases v <;> rfl
  rw [if_neg h3]
  by_cases h4 : key = "file_type"
  · rw [if_pos h4]; cases v <;> rfl
  rw [if_neg h4]
  by_cases h5 : key = "file_size"
  · rw [if_pos h5]; cases v <;> rfl
  rw [if_neg h5]
  by_cases h6 : key = "status"
  · rw [if_pos h6]; cases v <;> rfl
  rw [if_neg h6]
  by_cases h7 : key = "uploaded_at"
  · rw [if_pos h7]; cases v <;> rfl
  rw [if_neg h7]
  by_cases h8 : key = "processed_at"
  · rw [if_pos h8]; cases v <;> rfl
  rw [if_neg h8]
  by_cases h9 : key = "error_message"
  · rw [if_pos h9]; cases v <;> rfl
  rw [if_neg h9]
  by_cases h10 : key = "extracted_data"
  · rw [if_pos h10]; cases v <;> rfl
  rw [if_neg h10]
  by_cases h11 : key = "sales_order_header_id"
  · exact absurd h11 h
  rw [if_neg h11]

lemma applyUpdates_id (u : List (String × FieldVal)) :
    ∀ d : Document, "id" ∉ u.map Prod.fst → (applyUpdates d u).id = d.id := by
  induction u with
  | nil => intro d _; rfl
  | cons p t ih =>
    intro d hm
    simp only [List.map_cons, List.mem_cons, not_or] at hm
    obtain ⟨h1, h2⟩ := hm
    show (applyUpdates (setField d p.1 p.2) t).id = d.id
    rw [ih _ h2, setField_id d p.1 p.2 (fun e => h1 e.symm)]

lemma applyUpdates_filename (u : List (String × FieldVal)) :
    ∀ d : Document, "filename" ∉ u.map Prod.fst → (applyUpdates d u).filename = d.filename := by
  induction u with
  | nil => intro d _; rfl
  | cons p t ih =>
    intro d hm
    simp only [List.map_cons, List.mem_cons, not_or] at hm
    obtain ⟨h1, h2⟩ := hm
    show (applyUpdates (setField d p.1 p.2) t).filename = d.filename
    rw [ih _ h2, setField_filename d p.1 p.2 (fun e => h1 e.symm)]

lemma applyUpdates_filePath (u : List (String × FieldVal)) :
    ∀ d : Document, "file_path" ∉ u.map Prod.fst → (applyUpdates d u).file_path = d.file_path := by
  induction u with
  | nil => intro d _; rfl
  | cons p t ih =>
    intro d hm
    simp only [List.map_cons, List.mem_cons, not_or] at hm
    obtain ⟨h1, h2⟩ := hm
    show (applyUpdates (setField d p.1 p.2) t).file_path = d.file_path
    rw [ih _ h2, setField_filePath d p.1 p.2 (fun e => h1 e.symm)]

lemma applyUpdates_fileType (u : List (String × FieldVal)) :
    ∀ d : Document, "file_type" ∉ u.map Prod.fst → (applyUpdates d u).file_type = d.file_type := by
  induction u with
  | nil => intro d _; rfl
  | cons p t ih =>
    intro d hm
    simp only [List.map_cons, List.mem_cons, not_or] at hm
    obtain ⟨h1, h2⟩ := hm
    show (applyUpdates (setField d p.1 p.2) t).file_type = d.file_type
    rw [ih _ h2, setField_fileType d p.1 p.2 (fun e => h1 e.symm)]

lemma applyUpdates_fileSize (u : List (String × FieldVal)) :
    ∀ d : Document, "file_size" ∉ u.map Prod.fst → (applyUpdates d u).file_size = d.file_size := by
  induction u with
  | nil => intro d _; rfl
  | cons p t ih =>
    intro d hm
    simp only [List.map_cons, List.mem_cons, not_or] at hm
    obtain ⟨h1, h2⟩ := hm
    show (applyUpdates (setField d p.1 p.2) t).file_size = d.file_size
    rw [ih _ h2, setField_fileSize d p.1 p.2 (fun e => h1 e.symm)]

lemma applyUpdates_status (u : List (String × FieldVal)) :
    ∀ d : Document, "status" ∉ u.map Prod.fst → (applyUpdates d u).status = d.status := by
  induction u with
  | nil => intro d _; rfl
  | cons p t ih =>
    intro d hm
    simp only [List.map_cons, List.mem_cons, not_or] at hm
    obtain ⟨h1, h2⟩ := hm
    show (applyUpdates (setField d p.1 p.2) t).status = d.status
    rw [ih _ h2, setField_status d p.1 p.2 (fun e => h1 e.symm)]

lemma applyUpdates_uploadedAt (u : List (String × FieldVal)) :
    ∀ d : Document, "uploaded_at" ∉ u.map Prod.fst → (applyUpdates d u).uploaded_at = d.uploaded_at := by
  induction u with
  | nil => intro d _; rfl
  | cons p t ih =>
    intro d hm
    simp only [List.map_cons, List.mem_cons, not_or] at hm
    obtain ⟨h1, h2⟩ := hm
    show (applyUpdates (setField d p.1 p.2) t).uploaded_at = d.uploaded_at
    rw [ih _ h2, setField_uploadedAt d p.1 p.2 (fun e => h1 e.symm)]

lemma applyUpdates_processedAt (u : List (String × FieldVal)) :
    ∀ d : Document, "processed_at" ∉ u.map Prod.fst → (applyUpdates d u).processed_at = d.processed_at := by
  induction u with
  | nil => intro d _; rfl
  | cons p t ih =>
    intro d hm
    simp only [List.map_cons, List.mem_cons, not_or] at hm
    obtain ⟨h1, h2⟩ := hm
    show (applyUpdates (setField d p.1 p.2) t).processed_at = d.processed_at
    rw [ih _ h2, setField_processedAt d p.1 p.2 (fun e => h1 e.symm)]

lemma applyUpdates_errorMessage (u : List (String × FieldVal)) :
    ∀ d : Document, "error_message" ∉ u.map Prod.fst → (applyUpdates d u).error_message = d.error_message := by
  induction u with
  | nil => intro d _; rfl
  | cons p t ih =>
    intro d hm
    simp only [List.map_cons, List.mem_cons, not_or] at hm
    obtain ⟨h1, h2⟩ := hm
    show (applyUpdates (setField d p.1 p.2) t).error_message = d.error_message
    rw [ih _ h2, setField_errorMessage d p.1 p.2 (fun e => h1 e.symm)]

lemma applyUpdates_extractedData (u : List (String × FieldVal)) :
    ∀ d : Document, "extracted_data" ∉ u.map Prod.fst → (applyUpdates d u).extracted_data = d.extracted_data := by
  induction u with
  | nil => intro d _; rfl
  | cons p t ih =>
    intro d hm
    simp only [List.map_cons, List.mem_cons, not_or] at hm
    obtain ⟨h1, h2⟩ := hm
    show (applyUpdates (setField d p.1 p.2) t).extracted_data = d.extracted_data
    rw [ih _ h2, setField_extractedData d p.1 p.2 (fun e => h1 e.symm)]

lemma applyUpdates_salesOrderId (u : List (String × FieldVal)) :
    ∀ d : Document, "sales_order_header_id" ∉ u.map Prod.fst → (applyUpdates d u).sales_order_header_id = d.sales_order_header_id := by
  induction u with
  | nil => intro d _; rfl
  | cons p t ih =>
    intro d hm
    simp only [List.map_cons, List.mem_cons, not_or] at hm
    obtain ⟨h1, h2⟩ := hm
    show (applyUpdates (setField d p.1 p.2) t).sales_order_header_id = d.sales_order_header_id
    rw [ih _ h2, setField_salesOrderId d p.1 p.2 (fun e => h1 e.symm)]

/-! Storage lemmas. -/

lemma dictPut_other (m : List (String × Document)) (k : String) (v : Document) :
    ∀ k2, k2 ≠ k → dictGet (dictPut m k v) k2 = dictGet m k2 := by
  induction m with
  | nil =>
    intro k2 hne
    have hkk : (k == k2) = false := beq_eq_false_iff_ne.mpr (fun e => hne e.symm)
    simp [dictPut, dictGet, List.find?, hkk]
  | cons p t ih =>
    intro k2 hne
    have hkk : (k == k2) = false := beq_eq_false_iff_ne.mpr (fun e => hne e.symm)
    by_cases hp : p.1 = k
    · have hpk : (p.1 == k2) = false := by rw [hp]; exact hkk
      simp [dictPut, if_pos hp, dictGet, List.find?, hkk, hpk]
    · simp only [dictPut, if_neg hp, dictGet, List.find?]
      by_cases hq : p.1 = k2
      · simp [hq]
      · have hpq : (p.1 == k2) = false := beq_eq_false_iff_ne.mpr hq
        simp only [hpq]
        exact ih k2 hne

/-- Claim C9: an update of a missing id returns "not found" and leaves the
store unchanged; otherwise the stored record is replaced by the field
merge of the old record, every field not named in the update mapping keeps
its previous value, and every other id maps to its previous record. -/
theorem c9_update_merge (st : Storage) (k : String) (u : List (String × FieldVal)) :
    (dictGet st.docs k = none → update_document st k u = (none, st)) ∧
    (∀ d, dictGet st.docs k = some d →
      (update_document st k u).1 = some (applyUpdates d u) ∧
      (∀ k2, k2 ≠ k →
        dictGet (update_document st k u).2.docs k2 = dictGet st.docs k2) ∧
      ("id" ∉ u.map Prod.fst → (applyUpdates d u).id = d.id) ∧
      ("filename" ∉ u.map Prod.fst → (applyUpdates d u).filename = d.filename) ∧
      ("file_path" ∉ u.map Prod.fst → (applyUpdates d u).file_path = d.file_path) ∧
      ("file_type" ∉ u.map Prod.fst → (applyUpdates d u).file_type = d.file_type) ∧
      ("file_size" ∉ u.map Prod.fst → (applyUpdates d u).file_size = d.file_size) ∧
      ("status" ∉ u.map Prod.fst → (applyUpdates d u).status = d.status) ∧
      ("uploaded_at" ∉ u.map Prod.fst → (applyUpdates d u).uploaded_at = d.uploaded_at) ∧
      ("processed_at" ∉ u.map Prod.fst → (applyUpdates d u).processed_at = d.processed_at) ∧
      ("error_message" ∉ u.map Prod.fst → (applyUpdates d u).error_message = d.error_message) ∧
      ("extracted_data" ∉ u.map Prod.fst → (applyUpdates d u).extracted_data = d.extracted_data) ∧
      ("sales_order_header_id" ∉ u.map Prod.fst →
        (applyUpdates d u).sales_order_header_id = d.sales_order_header_id)) := by
  constructor
  · intro hn
    simp [update_document, hn]
  · intro d hd
    refine ⟨by simp [update_document, hd], ?_,
      applyUpdates_id u d, applyUpdates_filename u d, applyUpdates_filePath u d,
      applyUpdates_fileType u d, applyUpdates_fileSize u d, applyUpdates_status u d,
      applyUpdates_uploadedAt u d, applyUpdates_processedAt u d,
      applyUpdates_errorMessage u d, applyUpdates_extractedData u d,
      applyUpdates_salesOrderId u d⟩
    intro k2 hne
    simp only [update_document, hd]
    exact dictPut_other st.docs k (applyUpdates d u) k2 hne

/-- A concrete store for the C9 witness. -/
def frameDocW : Document :=
  ⟨"1", "inv.pdf", "./uploads/inv.pdf", "pdf", 9, "uploaded", "t0", none, none, none, none⟩

def frameStoreW : Storage := ⟨[("1", frameDocW)], 2⟩

/-- Witness for C9 at a concrete store and update mapping. -/
theorem c9_update_merge_witness :
    (update_document frameStoreW "1" processingUpdate).1 =
      some (applyUpdates frameDocW processingUpdate) ∧
    (applyUpdates frameDocW processingUpdate).filename = frameDocW.filename ∧
    update_document frameStoreW "2" processingUpdate = (none, frameStoreW) := by
  have h := c9_update_merge frameStoreW "1" processingUpdate
  have h2 := c9_update_merge frameStoreW "2" processingUpdate
  exact ⟨(h.2 frameDocW rfl).1, ((h.2 frameDocW rfl).2.2.2.1 (by decide)), h2.1 rfl⟩

/-- Claim C10: lookups through the status, data and file-serving endpoints
search by `sales_order_header_id` first and by document id only
afterwards, so a sales-order match shadows a document whose own id equals
the identifier. -/
theorem c10_lookup_shadowing (st : Storage) (k : String) (d1 d2 : Document)
    (h1 : get_document_by_sales_order_id st k = some d1)
    (h2 : get_document st k = some d2) :
    find_document_by_id st k = some d1 ∧ serve_document_lookup st k = some d1 := by
  constructor
  · simp [find_document_by_id, h1]
  · simp [serve_document_lookup, h1]

/-- Concrete shadowing pair for the C10 witness: `shadowDocA` (id "2") has
sales-order id "1", while `shadowDocB` has document id "1". -/
def shadowDocA : Document :=
  ⟨"2", "a.pdf", "", "pdf", 0, "completed", "t", none, none, none, some "1"⟩

def shadowDocB : Document :=
  ⟨"1", "b.pdf", "", "pdf", 0, "completed", "t", none, none, none, none⟩

def shadowStoreW : Storage := ⟨[("1", shadowDocB), ("2", shadowDocA)], 3⟩

/-- Witness for C10: identifier "1" resolves to the sales-order match, not
to the document whose id is "1". -/
theorem c10_lookup_shadowing_witness :
    find_document_by_id shadowStoreW "1" = some shadowDocA ∧
    serve_document_lookup shadowStoreW "1" = some shadowDocA :=
  c10_lookup_shadowing shadowStoreW "1" shadowDocA shadowDocB rfl rfl

/-! Lifecycle claims. -/

/-- The three status sequences asserted by the specification. -/
def claimedTraces : List (List String) :=
  [["uploaded"], ["uploaded", "processing", "completed"], ["uploaded", "processing", "error"]]

/-- The status sequences the code can actually produce: the claimed ones,
the mid-processing observation, and the direct error creation of
`_create_error_document`. -/
def actualTraces : List (List String) :=
  [["uploaded"], ["uploaded", "processing"], ["uploaded", "processing", "completed"],
   ["uploaded", "processing", "error"], ["error"]]

/-- Counterexample to claim C6 as stated: a validation failure creates a
document whose lifetime status sequence is `[error]`, which is not among
the three claimed sequences. -/
theorem c6_counterexample :
    ObservableTrace ["error"] ∧ ["error"] ∉ claimedTraces :=
  ⟨⟨false, .error "File type not allowed", 1, Nat.one_pos, rfl⟩, by decide⟩

/-- Claim C6 as amended: every observable status sequence is one of
`[uploaded]`, `[uploaded, processing]`, `[uploaded, processing,
completed]`, `[uploaded, processing, error]` or `[error]`; `completed` and
`error` never co-occur, no status is skipped, and nothing follows a
terminal status. -/
theorem c6_lifecycle (h : List String) (ho : ObservableTrace h) : h ∈ actualTraces := by
  obtain ⟨valid, outcome, n, hn, rfl⟩ := ho
  cases valid with
  | false =>
    cases n with
    | zero => exact absurd hn (by decide)
    | succ m =>
      have : (uploadTrace false outcome).take (m + 1) = ["error"] := by
        simp [uploadTrace, List.take_succ_cons]
      rw [this]; decide
  | true =>
    cases outcome with
    | ok j =>
      match n, hn with
      | 1, _ => simp [uploadTrace, processTrace, actualTraces]
      | 2, _ => simp [uploadTrace, processTrace, actualTraces]
      | (m + 3), _ =>
        have : (uploadTrace true (.ok j)).take (m + 3) = ["uploaded", "processing", "completed"] := by
          simp [uploadTrace, processTrace, List.take_succ_cons]
        rw [this]; decide
    | error msg =>
      match n, hn with
      | 1, _ => simp [uploadTrace, processTrace, actualTraces]
      | 2, _ => simp [uploadTrace, processTrace, actualTraces]
      | (m + 3), _ =>
        have : (uploadTrace true (.error msg)).take (m + 3) = ["uploaded", "processing", "error"] := by
          simp [uploadTrace, processTrace, List.take_succ_cons]
        rw [this]; decide

/-- Witness for C6 at the successful-processing flow observed at its end. -/
theorem c6_lifecycle_witness :
    ["uploaded", "processing", "completed"] ∈ actualTraces :=
  c6_lifecycle _ ⟨true, .ok .null, 3, by decide, rfl⟩

/-- Claim C7: in every reachable document state, `extracted_data` is
non-null exactly when the status is `completed`, and `error_message` is
non-null exactly when the status is `error`. -/
theorem c7_invariant (d : Document) (hd : ReachableDoc d) :
    (d.extracted_data ≠ none ↔ d.status = "completed") ∧
    (d.error_message ≠ none ↔ d.status = "error") := by
  have hs1 : ("uploaded" : String) ≠ "completed" := by decide
  have hs2 : ("uploaded" : String) ≠ "error" := by decide
  have hs3 : ("processing" : String) ≠ "completed" := by decide
  have hs4 : ("processing" : String) ≠ "error" := by decide
  have hs5 : ("completed" : String) ≠ "error" := by decide
  have hs6 : ("error" : String) ≠ "completed" := by decide
  rcases hd with ⟨fn, fp, ft, sz, ts, rfl⟩ | ⟨fn, fp, ft, sz, ts, rfl⟩ |
    ⟨fn, fp, ft, sz, ts, o, soid, ts2, rfl⟩ | ⟨fn, msg, ts, rfl⟩
  · exact ⟨⟨fun h => absurd rfl h, fun h => absurd h hs1⟩,
      ⟨fun h => absurd rfl h, fun h => absurd h hs2⟩⟩
  · exact ⟨⟨fun h => absurd rfl h, fun h => absurd h hs3⟩,
      ⟨fun h => absurd rfl h, fun h => absurd h hs4⟩⟩
  · cases o with
    | ok j =>
      exact ⟨⟨fun _ => rfl, fun _ => Option.some_ne_none j⟩,
        ⟨fun h => absurd rfl h, fun h => absurd h hs5⟩⟩
    | error m =>
      exact ⟨⟨fun h => absurd rfl h, fun h => absurd h hs6⟩,
        ⟨fun _ => rfl, fun _ => Option.some_ne_none m⟩⟩
  · exact ⟨⟨fun h => absurd rfl h, fun h => absurd h hs6⟩,
      ⟨fun _ => rfl, fun _ => Option.some_ne_none msg⟩⟩

/-- Witness for C7 at a concrete completed document. -/
theorem c7_invariant_witness :
    ((uploadDoc2 "inv.pdf" "./u/inv.pdf" "pdf" 9 "t0" (.ok (.obj [])) "SO-1" "t1").extracted_data ≠ none ↔
      (uploadDoc2 "inv.pdf" "./u/inv.pdf" "pdf" 9 "t0" (.ok (.obj [])) "SO-1" "t1").status = "completed") ∧
    ((uploadDoc2 "inv.pdf" "./u/inv.pdf" "pdf" 9 "t0" (.ok (.obj [])) "SO-1" "t1").error_message ≠ none ↔
      (uploadDoc2 "inv.pdf" "./u/inv.pdf" "pdf" 9 "t0" (.ok (.obj [])) "SO-1" "t1").status = "error") :=
  c7_invariant _ (Or.inr (Or.inr (Or.inl
    ⟨"inv.pdf", "./u/inv.pdf", "pdf", 9, "t0", .ok (.obj []), "SO-1", "t1", rfl⟩)))

/-! Decimal id strings: `str(n)` is injective. -/

lemma foldl_digits_shift (l : List Char) : ∀ a : Nat,
    l.foldl (fun a c => 10 * a + (c.toNat - 48)) a = a * 10 ^ l.length + digitsVal l := by
  induction l with
  | nil => intro a; simp [digitsVal]
  | cons c t ih =>
    intro a
    show t.foldl _ (10 * a + (c.toNat - 48)) = _
    rw [ih]
    have : digitsVal (c :: t) = (10 * 0 + (c.toNat - 48)) * 10 ^ t.length + digitsVal t := by
      show t.foldl _ (10 * 0 + (c.toNat - 48)) = _
      rw [ih]
    rw [this]
    simp [List.length_cons, pow_succ]
    ring

lemma digitsVal_cons (c : Char) (l : List Char) :
    digitsVal (c :: l) = (c.toNat - 48) * 10 ^ l.length + digitsVal l := by
  show l.foldl _ (10 * 0 + (c.toNat - 48)) = _
  rw [foldl_digits_shift]
  ring_nf

lemma digitChar_sub (r : Nat) (h : r < 10) : (Nat.digitChar r).toNat - 48 = r := by
  interval_cases r <;> decide

lemma toDigitsCore_val : ∀ f n acc, n < f →
    digitsVal (Nat.toDigitsCore 10 f n acc) = n * 10 ^ acc.length + digitsVal acc := by
  intro f
  induction f with
  | zero => intro n acc h; exact absurd h (Nat.not_lt_zero n)
  | succ f ih =>
    intro n acc h
    rw [Nat.toDigitsCore]
    by_cases h0 : n / 10 = 0
    · rw [if_pos h0]
      have hn : n < 10 := by omega
      rw [digitsVal_cons, digitChar_sub (n % 10) (Nat.mod_lt n (by norm_num)),
        Nat.mod_eq_of_lt hn]
    · rw [if_neg h0]
      have hrec : n / 10 < f := by omega
      rw [ih (n / 10) (Nat.digitChar (n % 10) :: acc) hrec]
      rw [digitsVal_cons, digitChar_sub (n % 10) (Nat.mod_lt n (by omega))]
      have hdm : 10 * (n / 10) + n % 10 = n := Nat.div_add_mod n 10
      conv_rhs => rw [← hdm]
      simp [List.length_cons, pow_succ]
      ring

lemma digitsVal_repr (n : Nat) : digitsVal (Nat.repr n).data = n := by
  have h1 : (Nat.repr n).data = Nat.toDigits 10 n := rfl
  rw [h1, Nat.toDigits, toDigitsCore_val (n + 1) n [] (Nat.lt_succ_self n)]
  simp [digitsVal]

lemma reprNat_inj (a b : Nat) (h : Nat.repr a = Nat.repr b) : a = b := by
  have hd : (Nat.repr a).data = (Nat.repr b).data := by rw [h]
  rw [← digitsVal_repr a, ← digitsVal_repr b, hd]

lemma dictPut_absent (m : List (String × Document)) (k : String) (v : Document)
    (h : ∀ p ∈ m, p.1 ≠ k) : dictPut m k v = m ++ [(k, v)] := by
  induction m with
  | nil => rfl
  | cons p t ih =>
    simp only [dictPut]
    rw [if_neg (h p (by simp)), ih (fun q hq => h q (by simp [hq]))]
    simp

lemma createSeq_char (ds : Nat → Document) (hds : ∀ i, (ds i).id = "" ∨ (ds i).id = "0") :
    ∀ N, (createSeq ds N).nextId = N + 1 ∧
      (createSeq ds N).docs.map Prod.fst = (List.range N).map (fun i => Nat.repr (i + 1)) := by
  intro N
  induction N with
  | zero => exact ⟨rfl, rfl⟩
  | succ n ih =>
    obtain ⟨hnext, hkeys⟩ := ih
    have hstep : createSeq ds (n + 1) = (create_document (createSeq ds n) (ds n)).2 := rfl
    rw [hstep]
    unfold create_document
    rw [if_pos (hds n)]
    refine ⟨by simp [hnext], ?_⟩
    simp only [hnext]
    have habs : ∀ p ∈ (createSeq ds n).docs, p.1 ≠ Nat.repr (n + 1) := by
      intro p hp he
      have hmem : p.1 ∈ (createSeq ds n).docs.map Prod.fst := List.mem_map_of_mem _ hp
      rw [hkeys] at hmem
      obtain ⟨i, hi, hrep⟩ := List.mem_map.mp hmem
      have hin : i + 1 = n + 1 := reprNat_inj _ _ (by rw [hrep, he])
      have : i = n := by omega
      rw [this] at hi
      exact absurd hi (by simp)
    rw [dictPut_absent _ _ _ habs]
    rw [List.map_append, hkeys, List.range_succ, List.map_append]
    simp

/-- Claim C8: N creates with placeholder ids against a fresh store yield
exactly the keys `str(1) .. str(N)` in order (gapless, strictly
increasing), all distinct, and each create appends a fresh entry without
touching earlier ones (ids are never reused or reassigned). -/
theorem c8_create_gapless_ids (ds : Nat → Document)
    (hds : ∀ i, (ds i).id = "" ∨ (ds i).id = "0") (N : Nat) :
    (createSeq ds N).docs.map Prod.fst = (List.range N).map (fun i => Nat.repr (i + 1)) ∧
    ((createSeq ds N).docs.map Prod.fst).Nodup ∧
    (∀ n, n < N → ∃ d, (createSeq ds (n + 1)).docs = (createSeq ds n).docs ++ [(Nat.repr (n + 1), d)] ∧
      d.id = Nat.repr (n + 1)) := by
  have hinj : Function.Injective (fun i => Nat.repr (i + 1)) := by
    intro a b h
    have := reprNat_inj (a + 1) (b + 1) h
    omega
  refine ⟨(createSeq_char ds hds N).2, ?_, ?_⟩
  · rw [(createSeq_char ds hds N).2]
    exact (List.nodup_range N).map hinj
  · intro n _
    obtain ⟨hnext, hkeys⟩ := createSeq_char ds hds n
    refine ⟨{ds n with id := Nat.repr (n + 1)}, ?_, rfl⟩
    have hstep : createSeq ds (n + 1) = (create_document (createSeq ds n) (ds n)).2 := rfl
    rw [hstep]
    unfold create_document
    rw [if_pos (hds n)]
    simp only [hnext]
    have habs : ∀ p ∈ (createSeq ds n).docs, p.1 ≠ Nat.repr (n + 1) := by
      intro p hp he
      have hmem : p.1 ∈ (createSeq ds n).docs.map Prod.fst := List.mem_map_of_mem _ hp
      rw [hkeys] at hmem
      obtain ⟨i, hi, hrep⟩ := List.mem_map.mp hmem
      have hin : i + 1 = n + 1 := reprNat_inj _ _ (by rw [hrep, he])
      have : i = n := by omega
      rw [this] at hi
      exact absurd hi (by simp)
    rw [dictPut_absent _ _ _ habs]

/-- The placeholder document each C8 witness create passes. -/
def placeholderDocW : Document := mkUploadDocument "f.pdf" "./u/f.pdf" "pdf" 1 "t0"

/-- Witness for C8 at three creates. -/
theorem c8_create_gapless_ids_witness :
    (createSeq (fun _ => placeholderDocW) 3).docs.map Prod.fst =
      (List.range 3).map (fun i => Nat.repr (i + 1)) ∧
    ((createSeq (fun _ => placeholderDocW) 3).docs.map Prod.fst).Nodup :=
  ⟨(c8_create_gapless_ids (fun _ => placeholderDocW) (fun _ => Or.inr rfl) 3).1,
   (c8_create_gapless_ids (fun _ => placeholderDocW) (fun _ => Or.inr rfl) 3).2.1⟩

/-! Recovery-parser claims. -/

/-- Project a cascade result to its value. -/
def exceptJson (x : Except PErr Json) : Option Json :=
  match x with
  | .ok v => some v
  | .error _ => none

/-- Number of entries in a record's `sales_order_details` list. -/
def detailsCount (v : Json) : Option Nat :=
  match v with
  | .obj ms =>
    (match ms.lookup "sales_order_details" with
     | some (.arr xs) => some xs.length
     | _ => none)
  | _ => none

/-- Whether a parse failure carries the bounded text preview. -/
def carriesPreview : PErr → Bool
  | .unparsable _ => true
  | .emptyResponse => false

/-- The section-8 invoice object of the specification. -/
def sectionEightText : String := "\x7b\"sales_order_header\": \x7b\"invoice_number\": \"INV-100\", \"total_amount\": 42.5\x7d, \"sales_order_details\": [\x7b\"line_number\":1,\"product_name\":\"Widget\",\"quantity\":2,\"unit_price\":21.25,\"line_total\":42.5\x7d]\x7d"

/-- The section-8 object truncated at the tail so that its final two
closing braces (and, necessarily, the closing bracket between them) are
dropped. -/
def truncatedEightText : String := "\x7b\"sales_order_header\": \x7b\"invoice_number\": \"INV-100\", \"total_amount\": 42.5\x7d, \"sales_order_details\": [\x7b\"line_number\":1,\"product_name\":\"Widget\",\"quantity\":2,\"unit_price\":21.25,\"line_total\":42.5"

set_option maxRecDepth 100000 in
/-- Counterexample to claim C1 as stated: truncating the section-8 object
at the tail so that exactly its two final closing braces are missing also
removes the closing bracket of the details array, which brace completion
never restores.  The brace-completion strategy fails on this text, the
cascade instead answers through the last-resort header extraction, and the
resulting structure (zero line items) differs from the original (one line
item). -/
theorem c1_counterexample :
    sectionEightText.data = truncatedEightText.data ++ ['}', ']', '}'] ∧
    tryBraceCompletion truncatedEightText.data = none ∧
    Option.map detailsCount (loadsOpt sectionEightText.data) = some (some 1) ∧
    Option.map detailsCount (exceptJson (parse_llm_response truncatedEightText.data)) = some (some 0) ∧
    exceptJson (parse_llm_response truncatedEightText.data) ≠ loadsOpt sectionEightText.data := by
  refine ⟨rfl, rfl, rfl, rfl, ?_⟩
  intro h
  have h1 : Option.map detailsCount (exceptJson (parse_llm_response truncatedEightText.data)) =
      some (some 0) := rfl
  rw [h] at h1
  have h2 : Option.map detailsCount (loadsOpt sectionEightText.data) = some (some 1) := rfl
  rw [h1] at h2
  exact absurd h2 (by decide)

/-- Claim C1 as amended: when a valid object is truncated by removing
exactly its final N closing-brace characters (N in 1..3) and the truncated
text's raw brace deficit equals N (no brace characters hide inside string
literals), the brace-completion strategy restores all N braces on its
first attempt and recovers the original structure exactly. -/
theorem c1_brace_completion (t : List Char) (N : Nat) (o : Json)
    (hpos : 0 < N) (hle : N ≤ 3)
    (hcount : t.count '{' = t.count '}' + N)
    (hparse : loads (t ++ List.replicate N '}') = .ok o) :
    tryBraceCompletion t = some o := by
  unfold tryBraceCompletion
  rw [if_pos (by omega)]
  have hdef : t.count '{' - t.count '}' = N := by omega
  rw [hdef]
  cases N with
  | zero => exact absurd hpos (by omega)
  | succ k =>
    unfold completionLoop
    rw [hparse]

/-- Witness for C1 at a nested object missing its two final braces. -/
theorem c1_brace_completion_witness :
    loads ("\x7b\"a\": \x7b\"b\": 1".data ++ List.replicate 2 '}') =
      .ok (.obj [("a", .obj [("b", .num 1 0)])]) ∧
    tryBraceCompletion "\x7b\"a\": \x7b\"b\": 1".data =
      some (.obj [("a", .obj [("b", .num 1 0)])]) :=
  ⟨rfl, c1_brace_completion "\x7b\"a\": \x7b\"b\": 1".data 2 _ (by decide) (by decide)
    (by decide) rfl⟩

/-- Counterexample to claim C2 as stated: the text `x {"a": {"b": 1}} y`
contains a balanced brace-delimited object that parses, the whole text
does not parse, and no fenced block exists, yet the parser fails: the
non-greedy scan stops at the first closing brace, which sits inside the
nested object. -/
theorem c2_counterexample :
    loadsOpt "\x7b\"a\": \x7b\"b\": 1\x7d\x7d".data = some (.obj [("a", .obj [("b", .num 1 0)])]) ∧
    loadsOpt "x \x7b\"a\": \x7b\"b\": 1\x7d\x7d y".data = none ∧
    fencedMatch "x \x7b\"a\": \x7b\"b\": 1\x7d\x7d y".data = none ∧
    parse_llm_response "x \x7b\"a\": \x7b\"b\": 1\x7d\x7d y".data =
      .error (.unparsable "x \x7b\"a\": \x7b\"b\": 1\x7d\x7d y".data) :=
  ⟨rfl, rfl, rfl, rfl⟩

/-- Claim C2 as amended: when the whole text does not parse and the fenced
strategy yields nothing, the parser takes the span from the first opening
brace to the first closing brace after it; whenever that span is itself
valid (in particular when the first balanced object is flat and no stray
brace precedes it), its parsed structure is returned. -/
theorem c2_first_brace_span (l : List Char) (seg : List Char) (v : Json)
    (h1 : loadsOpt (pyStrip l) = none)
    (h2 : strat2 (pyStrip l) = none)
    (hseg : firstBraceSeg (pyStrip l) = some seg)
    (hv : loads seg = .ok v) :
    parse_llm_response l = .ok v := by
  have hne : pyStrip l ≠ [] := by
    intro he
    rw [he] at hseg
    simp [firstBraceSeg] at hseg
  have h3 : strat3 (pyStrip l) = some v := by
    simp only [strat3, hseg, loadsOpt, hv]
  exact parse_llm_ok l v hne (attemptCascade_of_strat3 _ _ h1 h2 h3)

/-- Witness for C2 at text surrounding a flat object. -/
theorem c2_first_brace_span_witness :
    parse_llm_response "x \x7b\"a\": 1\x7d y".data = .ok (.obj [("a", .num 1 0)]) :=
  c2_first_brace_span "x \x7b\"a\": 1\x7d y".data "\x7b\"a\": 1\x7d".data _ rfl rfl rfl rfl

/-- Counterexample to claim C5 as stated: a whitespace-only text is a
non-empty input on which every strategy fails, but the parser raises the
empty-response error, which carries no preview. -/
theorem c5_counterexample :
    " ".data ≠ [] ∧
    parse_llm_response " ".data = .error .emptyResponse ∧
    carriesPreview .emptyResponse = false :=
  ⟨by decide, rfl, rfl⟩

/-- Claim C5 as amended: for every input that is non-empty after
whitespace stripping and on which every recovery strategy fails, the
parser fails with the single unparsable-response error, whose preview is
the first at-most-500 characters of the stripped text; whitespace-only
inputs raise the empty-response error instead. -/
theorem c5_unparsable_failure (l : List Char)
    (hne : pyStrip l ≠ [])
    (h1 : loadsOpt (pyStrip l) = none)
    (h2 : strat2 (pyStrip l) = none)
    (h3 : strat3 (pyStrip l) = none)
    (h4 : strat45 (pyStrip l) = none)
    (h5 : strat6 (pyStrip l) = none) :
    parse_llm_response l = .error (.unparsable ((pyStrip l).take 500)) ∧
    ((pyStrip l).take 500).length ≤ 500 := by
  constructor
  · exact parse_llm_fail l hne (attemptCascade_none _ h1 h2 h3 h4 h5)
  · exact List.length_take_le 500 _

/-- Witness for C5 at unparsable prose. -/
theorem c5_unparsable_failure_witness :
    parse_llm_response "recovery failed".data =
      .error (.unparsable (("recovery failed".data).take 500)) ∧
    ((pyStrip "recovery failed".data).take 500).length ≤ 500 :=
  ⟨(c5_unparsable_failure "recovery failed".data (by decide) rfl rfl rfl rfl rfl).1,
   (c5_unparsable_failure "recovery failed".data (by decide) rfl rfl rfl rfl rfl).2⟩

/-! Scanning lemmas for the fenced-block strategy. -/

lemma dropWhile_cons_false {p : Char → Bool} {c : Char} {l : List Char} (h : p c = false) :
    (c :: l).dropWhile p = c :: l := by
  simp [List.dropWhile, h]

lemma jsonWsSkip_cons_nonws (c : Char) (l : List Char) (h : isJsonWs c = false) :
    jsonWsSkip (c :: l) = c :: l := by
  simp [jsonWsSkip, List.dropWhile, h]

lemma parseValue_no_start (f : Nat) (c : Char) (l : List Char)
    (hws : isJsonWs c = false)
    (h1 : c ≠ '{') (h2 : c ≠ '[') (h3 : c ≠ '"') (h4 : c ≠ 't') (h5 : c ≠ 'f')
    (h6 : c ≠ 'n') (h7 : c ≠ '-') (h8 : c.isDigit = false) :
    parseValue (f + 1) (c :: l) = .error .expectingValue := by
  simp only [parseValue, jsonWsSkip_cons_nonws c l hws]
  rw [if_neg h1, if_neg h2, if_neg h3, if_neg h4, if_neg h5, if_neg h6,
    if_neg (by simp [h7, h8])]

lemma loads_no_start (c : Char) (l : List Char)
    (hws : isJsonWs c = false)
    (h1 : c ≠ '{') (h2 : c ≠ '[') (h3 : c ≠ '"') (h4 : c ≠ 't') (h5 : c ≠ 'f')
    (h6 : c ≠ 'n') (h7 : c ≠ '-') (h8 : c.isDigit = false) :
    loads (c :: l) = .error .expectingValue := by
  unfold loads
  have hlen : 3 * (c :: l).length + 3 = (3 * l.length + 5) + 1 := by
    simp [List.length_cons]; ring
  rw [hlen, parseValue_no_start _ c l hws h1 h2 h3 h4 h5 h6 h7 h8]

lemma pyStrip_of_ends (c1 c2 : Char) (l2 : List Char)
    (h1 : isPyWs c1 = false) (h2 : isPyWs c2 = false) :
    pyStrip (c1 :: l2 ++ [c2]) = c1 :: l2 ++ [c2] := by
  unfold pyStrip
  rw [show (c1 :: l2 ++ [c2]) = c1 :: (l2 ++ [c2]) from rfl, dropWhile_cons_false h1]
  have hrev : (c1 :: (l2 ++ [c2])).reverse = c2 :: (l2.reverse ++ [c1]) := by simp
  rw [hrev, dropWhile_cons_false h2]
  simp

lemma dropWhile_first_nonbt (a b : List Char) (hnb : ∀ c ∈ a, c ≠ btick) :
    ∃ c r, (a ++ '}' :: b).dropWhile isPyWs = c :: r ∧ c ≠ btick := by
  induction a with
  | nil => exact ⟨'}', b, by rw [List.nil_append, dropWhile_cons_false (by decide)], by decide⟩
  | cons x a ih =>
    by_cases hw : isPyWs x = true
    · obtain ⟨c, r, hdrop, hcb⟩ := ih (fun q hq => hnb q (by simp [hq]))
      exact ⟨c, r, by simp [List.dropWhile_cons, hw, ← hdrop], hcb⟩
    · exact ⟨x, a ++ '}' :: b,
        by simp only [List.cons_append]; exact dropWhile_cons_false (by simpa using hw),
        hnb x (by simp)⟩

lemma fenceAfter_nonbt (a b : List Char) (hnb : ∀ c ∈ a, c ≠ btick) :
    fenceAfter (a ++ '}' :: b) = false := by
  obtain ⟨c, r, hdrop, hcb⟩ := dropWhile_first_nonbt a b hnb
  unfold fenceAfter
  rw [hdrop]
  cases r with
  | nil => rfl
  | cons y ys =>
    cases ys with
    | nil => rfl
    | cons z zs => exact decide_eq_false (fun hand => hcb hand.1)

lemma groupScan_exact (mid : List Char) (tail : List Char) :
    ∀ acc, (∀ c ∈ mid, c ≠ btick) → fenceAfter tail = true →
    groupScan acc (mid ++ '}' :: tail) = some (acc ++ mid ++ ['}']) := by
  induction mid with
  | nil =>
    intro acc hnb hf
    rw [List.nil_append]
    unfold groupScan
    rw [if_pos ⟨rfl, hf⟩]
    simp
  | cons x mid ih =>
    intro acc hnb hf
    rw [List.cons_append]
    unfold groupScan
    rw [if_neg, ih (acc ++ [x]) (fun q hq => hnb q (by simp [hq])) hf]
    · simp
    · rintro ⟨-, hfa⟩
      rw [fenceAfter_nonbt mid tail (fun q hq => hnb q (by simp [hq]))] at hfa
      exact Bool.noConfusion hfa

/-- The exact text a tagged fenced block wraps around an object. -/
def fenceWrap (x : List Char) : List Char :=
  btick :: btick :: btick :: 'j' :: 's' :: 'o' :: 'n' :: '\n' ::
    (x ++ '\n' :: btick :: btick :: btick :: [])

lemma fencedAt_wrap (mid : List Char) (hnb : ∀ c ∈ mid, c ≠ btick) :
    fencedAt (fenceWrap ('{' :: mid ++ ['}'])) = some ('{' :: mid ++ ['}']) := by
  show (if btick = btick ∧ btick = btick ∧ btick = btick then
      match (dropJsonTag ('j' :: 's' :: 'o' :: 'n' :: '\n' ::
        (('{' :: mid ++ ['}']) ++ '\n' :: btick :: btick :: btick :: []))).dropWhile isPyWs with
      | '{' :: body => groupScan ['{'] body
      | _ => none
    else none) = some ('{' :: mid ++ ['}'])
  rw [if_pos ⟨rfl, rfl, rfl⟩]
  have htag : dropJsonTag ('j' :: 's' :: 'o' :: 'n' :: '\n' ::
      (('{' :: mid ++ ['}']) ++ '\n' :: btick :: btick :: btick :: [])) =
      '\n' :: (('{' :: mid ++ ['}']) ++ '\n' :: btick :: btick :: btick :: []) := rfl
  rw [htag]
  have hdrop : ('\n' :: (('{' :: mid ++ ['}']) ++ '\n' :: btick :: btick :: btick :: [])).dropWhile isPyWs =
      '{' :: (mid ++ '}' :: '\n' :: btick :: btick :: btick :: []) := by
    rw [show ('{' :: mid ++ ['}']) ++ '\n' :: btick :: btick :: btick :: [] =
      '{' :: (mid ++ '}' :: '\n' :: btick :: btick :: btick :: []) by simp]
    rw [List.dropWhile_cons]
    simp only [show isPyWs '\n' = true by decide, if_true]
    exact dropWhile_cons_false (by decide)
  rw [hdrop]
  show groupScan ['{'] (mid ++ '}' :: '\n' :: btick :: btick :: btick :: []) = _
  rw [groupScan_exact mid ('\n' :: btick :: btick :: btick :: []) ['{'] hnb (by decide)]
  simp

lemma fencedMatch_wrap (mid : List Char) (hnb : ∀ c ∈ mid, c ≠ btick) :
    fencedMatch (fenceWrap ('{' :: mid ++ ['}'])) = some ('{' :: mid ++ ['}']) := by
  show (match fencedAt (fenceWrap ('{' :: mid ++ ['}'])) with
    | some g => some g
    | none => fencedMatch (btick :: btick :: 'j' :: 's' :: 'o' :: 'n' :: '\n' ::
        (('{' :: mid ++ ['}']) ++ '\n' :: btick :: btick :: btick :: []))) = _
  rw [fencedAt_wrap mid hnb]

/-- The exact text an untagged fenced block wraps around an object. -/
def fenceWrapU (x : List Char) : List Char :=
  btick :: btick :: btick :: '\n' ::
    (x ++ '\n' :: btick :: btick :: btick :: [])

lemma fencedAt_wrapU (mid : List Char) (hnb : ∀ c ∈ mid, c ≠ btick) :
    fencedAt (fenceWrapU ('{' :: mid ++ ['}'])) = some ('{' :: mid ++ ['}']) := by
  show (if btick = btick ∧ btick = btick ∧ btick = btick then
      match (dropJsonTag ('\n' ::
        (('{' :: mid ++ ['}']) ++ '\n' :: btick :: btick :: btick :: []))).dropWhile isPyWs with
      | '{' :: body => groupScan ['{'] body
      | _ => none
    else none) = some ('{' :: mid ++ ['}'])
  rw [if_pos ⟨rfl, rfl, rfl⟩]
  have htag : dropJsonTag ('\n' ::
      (('{' :: mid ++ ['}']) ++ '\n' :: btick :: btick :: btick :: [])) =
      '\n' :: (('{' :: mid ++ ['}']) ++ '\n' :: btick :: btick :: btick :: []) := rfl
  rw [htag]
  have hdrop : ('\n' :: (('{' :: mid ++ ['}']) ++ '\n' :: btick :: btick :: btick :: [])).dropWhile isPyWs =
      '{' :: (mid ++ '}' :: '\n' :: btick :: btick :: btick :: []) := by
    rw [show ('{' :: mid ++ ['}']) ++ '\n' :: btick :: btick :: btick :: [] =
      '{' :: (mid ++ '}' :: '\n' :: btick :: btick :: btick :: []) by simp]
    rw [List.dropWhile_cons]
    simp only [show isPyWs '\n' = true by decide, if_true]
    exact dropWhile_cons_false (by decide)
  rw [hdrop]
  show groupScan ['{'] (mid ++ '}' :: '\n' :: btick :: btick :: btick :: []) = _
  rw [groupScan_exact mid ('\n' :: btick :: btick :: btick :: []) ['{'] hnb (by decide)]
  simp

lemma fencedMatch_wrapU (mid : List Char) (hnb : ∀ c ∈ mid, c ≠ btick) :
    fencedMatch (fenceWrapU ('{' :: mid ++ ['}'])) = some ('{' :: mid ++ ['}']) := by
  show (match fencedAt (fenceWrapU ('{' :: mid ++ ['}'])) with
    | some g => some g
    | none => fencedMatch (btick :: btick :: '\n' ::
        (('{' :: mid ++ ['}']) ++ '\n' :: btick :: btick :: btick :: []))) = _
  rw [fencedAt_wrapU mid hnb]

/-- Claim C3 as amended: a fenced code block -- language-tagged or not --
wrapping a backtick-free object parses to the same structure as the object
alone. -/
theorem c3_fenced_block (mid : List Char) (v : Json)
    (hnb : ∀ c ∈ mid, c ≠ btick)
    (hv : loads ('{' :: mid ++ ['}']) = .ok v) :
    parse_llm_response (fenceWrap ('{' :: mid ++ ['}'])) = .ok v ∧
    parse_llm_response (fenceWrapU ('{' :: mid ++ ['}'])) = .ok v ∧
    parse_llm_response ('{' :: mid ++ ['}']) = .ok v := by
  refine ⟨?_, ?_, ?_⟩
  · have hshape : fenceWrap ('{' :: mid ++ ['}']) =
        btick :: (btick :: btick :: 'j' :: 's' :: 'o' :: 'n' :: '\n' ::
          (('{' :: mid ++ ['}']) ++ '\n' :: btick :: btick :: [])) ++ [btick] := by
      simp [fenceWrap]
    have hstrip : pyStrip (fenceWrap ('{' :: mid ++ ['}'])) = fenceWrap ('{' :: mid ++ ['}']) := by
      rw [hshape]
      exact pyStrip_of_ends btick btick _ (by decide) (by decide)
    have hload : loadsOpt (fenceWrap ('{' :: mid ++ ['}'])) = none := by
      unfold loadsOpt
      rw [show fenceWrap ('{' :: mid ++ ['}']) = btick :: (btick :: btick :: 'j' :: 's' :: 'o' :: 'n' :: '\n' ::
        (('{' :: mid ++ ['}']) ++ '\n' :: btick :: btick :: btick :: [])) from rfl]
      rw [loads_no_start btick _ (by decide) (by decide) (by decide) (by decide) (by decide)
        (by decide) (by decide) (by decide) (by decide)]
    have h2 : strat2 (fenceWrap ('{' :: mid ++ ['}'])) = some v := by
      simp only [strat2, fencedMatch_wrap mid hnb, loadsOpt, hv]
    have hne : fenceWrap ('{' :: mid ++ ['}']) ≠ [] := by simp [fenceWrap]
    rw [← hstrip] at hne h2 hload
    exact parse_llm_ok _ v hne (attemptCascade_of_strat2 _ _ hload h2)
  · have hshape : fenceWrapU ('{' :: mid ++ ['}']) =
        btick :: (btick :: btick :: '\n' ::
          (('{' :: mid ++ ['}']) ++ '\n' :: btick :: btick :: [])) ++ [btick] := by
      simp [fenceWrapU]
    have hstrip : pyStrip (fenceWrapU ('{' :: mid ++ ['}'])) = fenceWrapU ('{' :: mid ++ ['}']) := by
      rw [hshape]
      exact pyStrip_of_ends btick btick _ (by decide) (by decide)
    have hload : loadsOpt (fenceWrapU ('{' :: mid ++ ['}'])) = none := by
      unfold loadsOpt
      rw [show fenceWrapU ('{' :: mid ++ ['}']) = btick :: (btick :: btick :: '\n' ::
        (('{' :: mid ++ ['}']) ++ '\n' :: btick :: btick :: btick :: [])) from rfl]
      rw [loads_no_start btick _ (by decide) (by decide) (by decide) (by decide) (by decide)
        (by decide) (by decide) (by decide) (by decide)]
    have h2 : strat2 (fenceWrapU ('{' :: mid ++ ['}'])) = some v := by
      simp only [strat2, fencedMatch_wrapU mid hnb, loadsOpt, hv]
    have hne : fenceWrapU ('{' :: mid ++ ['}']) ≠ [] := by simp [fenceWrapU]
    rw [← hstrip] at hne h2 hload
    exact parse_llm_ok _ v hne (attemptCascade_of_strat2 _ _ hload h2)
  · have hstrip2 : pyStrip ('{' :: mid ++ ['}']) = '{' :: mid ++ ['}'] :=
      pyStrip_of_ends '{' '}' mid (by decide) (by decide)
    have hne2 : ('{' :: mid ++ ['}'] : List Char) ≠ [] := by simp
    have hl : loadsOpt ('{' :: mid ++ ['}']) = some v := by
      unfold loadsOpt
      rw [hv]
    rw [← hstrip2] at hne2 hl
    exact parse_llm_ok _ v hne2 (attemptCascade_of_strat1 _ _ hl)

/-- Witness for C3 at a clean fenced block, tagged and untagged. -/
theorem c3_fenced_block_witness :
    parse_llm_response (fenceWrap ('{' :: "\"a\": 1".data ++ ['}'])) = .ok (.obj [("a", .num 1 0)]) ∧
    parse_llm_response (fenceWrapU ('{' :: "\"a\": 1".data ++ ['}'])) = .ok (.obj [("a", .num 1 0)]) ∧
    parse_llm_response ('{' :: "\"a\": 1".data ++ ['}']) = .ok (.obj [("a", .num 1 0)]) :=
  c3_fenced_block "\"a\": 1".data _ (by decide) rfl

/-- Counterexample to claim C3 as stated: a fenced block wrapping the
valid object whose string value contains a closing brace and a triple
backtick defeats the non-greedy group, and the whole cascade fails even
though the wrapped object parses on its own. -/
theorem c3_counterexample :
    "```json\n\x7b\"a\": \"\x7d ```\"\x7d\n```".data =
      fenceWrap "\x7b\"a\": \"\x7d ```\"\x7d".data ∧
    loads "\x7b\"a\": \"\x7d ```\"\x7d".data = .ok (.obj [("a", .str "\x7d ```")]) ∧
    parse_llm_response "```json\n\x7b\"a\": \"\x7d ```\"\x7d\n```".data =
      .error (.unparsable "```json\n\x7b\"a\": \"\x7d ```\"\x7d\n```".data) :=
  ⟨rfl, rfl, rfl⟩

/-! Extension lemmas: a successful scan of a prefix is unchanged by text
appended after its remainder, because every lexical decision of the
scanner looks only at characters it reaches. -/

lemma dropWhile_append_cons {p : Char → Bool} {l : List Char} {c : Char} {r : List Char}
    (h : l.dropWhile p = c :: r) (ext : List Char) :
    (l ++ ext).dropWhile p = c :: (r ++ ext) := by
  induction l with
  | nil => simp at h
  | cons x t ih =>
    rw [List.dropWhile_cons] at h
    by_cases hx : p x = true
    · rw [if_pos hx] at h
      rw [List.cons_append, List.dropWhile_cons, if_pos hx]
      exact ih h
    · rw [if_neg hx] at h
      obtain ⟨rfl, rfl⟩ : x = c ∧ t = r := by
        exact ⟨(List.cons.injEq _ _ _ _ ▸ h).1, (List.cons.injEq _ _ _ _ ▸ h).2⟩
      rw [List.cons_append, List.dropWhile_cons, if_neg hx]

lemma takeWhile_append_stop {p : Char → Bool} {l : List Char} {c : Char} {r : List Char}
    (h : l.dropWhile p = c :: r) (ext : List Char) :
    (l ++ ext).takeWhile p = l.takeWhile p := by
  induction l with
  | nil => simp at h
  | cons x t ih =>
    rw [List.dropWhile_cons] at h
    by_cases hx : p x = true
    · rw [if_pos hx] at h
      rw [List.cons_append, List.takeWhile_cons, if_pos hx, List.takeWhile_cons, if_pos hx, ih h]
    · rw [List.cons_append, List.takeWhile_cons, if_neg hx, List.takeWhile_cons, if_neg hx]

lemma strBody_append (ext : List Char) :
    ∀ (n : Nat) (l : List Char), l.length ≤ n → ∀ acc s r,
    strBody acc l = .ok (s, r) → strBody acc (l ++ ext) = .ok (s, r ++ ext) := by
  intro n
  induction n with
  | zero =>
    intro l hlen acc s r h
    have : l = [] := List.eq_nil_of_length_eq_zero (Nat.le_zero.mp hlen)
    subst this
    simp [strBody] at h
  | succ n ih =>
    intro l hlen acc s r h
    cases l with
    | nil => simp [strBody] at h
    | cons c rest =>
      rw [List.cons_append]
      unfold strBody at h ⊢
      by_cases hq : c = '"'
      · rw [if_pos hq] at h ⊢
        simp only [Except.ok.injEq, Prod.mk.injEq] at h
        obtain ⟨rfl, rfl⟩ := h
        rfl
      · rw [if_neg hq] at h ⊢
        by_cases hb : c = '\\'
        · rw [if_pos hb] at h ⊢
          cases rest with
          | nil => exact absurd h (by simp)
          | cons e rest2 =>
            rw [List.cons_append]
            dsimp only at h ⊢
            by_cases hu : e = 'u'
            · rw [if_pos hu] at h ⊢
              match rest2, h with
              | h1 :: h2 :: h3 :: h4 :: rest3, h =>
                replace h : (if isHexDigit h1 = true ∧ isHexDigit h2 = true ∧ isHexDigit h3 = true ∧ isHexDigit h4 = true then
                    strBody (acc ++ [Char.ofNat (((hexVal h1 * 16 + hexVal h2) * 16 + hexVal h3) * 16 + hexVal h4)]) rest3
                  else Except.error JErr.invalidUnicodeEscape) = Except.ok (s, r) := h
                show (match h1 :: h2 :: h3 :: h4 :: (rest3 ++ ext) with
                  | h1 :: h2 :: h3 :: h4 :: rest3 =>
                    if isHexDigit h1 = true ∧ isHexDigit h2 = true ∧ isHexDigit h3 = true ∧ isHexDigit h4 = true then
                      strBody (acc ++ [Char.ofNat (((hexVal h1 * 16 + hexVal h2) * 16 + hexVal h3) * 16 + hexVal h4)]) rest3
                    else Except.error JErr.invalidUnicodeEscape
                  | _ => Except.error JErr.invalidUnicodeEscape) = Except.ok (s, r ++ ext)
                by_cases hhex : isHexDigit h1 ∧ isHexDigit h2 ∧ isHexDigit h3 ∧ isHexDigit h4
                · rw [if_pos hhex] at h
                  show (if isHexDigit h1 = true ∧ isHexDigit h2 = true ∧ isHexDigit h3 = true ∧ isHexDigit h4 = true then
                      strBody (acc ++ [Char.ofNat (((hexVal h1 * 16 + hexVal h2) * 16 + hexVal h3) * 16 + hexVal h4)]) (rest3 ++ ext)
                    else Except.error JErr.invalidUnicodeEscape) = Except.ok (s, r ++ ext)
                  rw [if_pos hhex]
                  exact ih rest3 (by simp [List.length_cons] at hlen ⊢; omega) _ s r h
                · rw [if_neg hhex] at h
                  exact absurd h (by simp)
            · rw [if_neg hu] at h ⊢
              cases hm : escMap e with
              | none => rw [hm] at h; exact absurd h (by simp)
              | some d =>
                rw [hm] at h
                replace h : strBody (acc ++ [d]) rest2 = .ok (s, r) := h
                show strBody (acc ++ [d]) (rest2 ++ ext) = .ok (s, r ++ ext)
                exact ih rest2 (by simp [List.length_cons] at hlen ⊢; omega) _ s r h
        · rw [if_neg hb] at h ⊢
          by_cases hctl : c.toNat < 32
          · rw [if_pos hctl] at h
            exact absurd h (by simp)
          · rw [if_neg hctl] at h ⊢
            exact ih rest (by simp [List.length_cons] at hlen ⊢; omega) _ s r h

/-- Remainder shapes after a number token that appended text could
reinterpret: the empty remainder and the dangling fraction/exponent
lookaheads.  Excluding them makes the token scan extension-stable. -/
def numSafe (r : List Char) : Prop :=
  r ≠ [] ∧ r ≠ ['.'] ∧ r ≠ ['e'] ∧ r ≠ ['E'] ∧
  r ≠ ['e', '+'] ∧ r ≠ ['e', '-'] ∧ r ≠ ['E', '+'] ∧ r ≠ ['E', '-']

lemma fracSplit_append (rest ext ds l2 : List Char)
    (h : fracSplit rest = (ds, l2)) (hdot : rest ≠ ['.']) (hl2 : l2 ≠ []) :
    fracSplit (rest ++ ext) = (ds, l2 ++ ext) := by
  cases rest with
  | nil =>
    simp only [fracSplit, Prod.mk.injEq] at h
    exact absurd h.2.symm hl2
  | cons x t =>
    cases t with
    | nil =>
      replace h : (([] : List Char), [x]) = (ds, l2) := h
      obtain ⟨rfl, rfl⟩ : ([] : List Char) = ds ∧ [x] = l2 :=
        ⟨congrArg Prod.fst h, congrArg Prod.snd h⟩
      have hx : x ≠ '.' := fun he => hdot (by rw [he])
      cases ext with
      | nil => simp [fracSplit]
      | cons y ys =>
        show (if x = '.' ∧ y.isDigit = true then
            ((y :: ys).takeWhile Char.isDigit, (y :: ys).dropWhile Char.isDigit)
          else ([], x :: y :: ys)) = ([], [x] ++ (y :: ys))
        rw [if_neg (fun hand => hx hand.1)]
        rfl
    | cons d t2 =>
      replace h : (if x = '.' ∧ d.isDigit = true then
          ((d :: t2).takeWhile Char.isDigit, (d :: t2).dropWhile Char.isDigit)
        else ([], x :: d :: t2)) = (ds, l2) := h
      show (if x = '.' ∧ d.isDigit = true then
          ((d :: (t2 ++ ext)).takeWhile Char.isDigit, (d :: (t2 ++ ext)).dropWhile Char.isDigit)
        else ([], x :: d :: (t2 ++ ext))) = (ds, l2 ++ ext)
      by_cases hc : x = '.' ∧ d.isDigit = true
      · rw [if_pos hc] at h
        rw [if_pos hc]
        simp only [Prod.mk.injEq] at h
        obtain ⟨rfl, rfl⟩ := h
        obtain ⟨c0, r0, hdrop⟩ : ∃ c0 r0, (d :: t2).dropWhile Char.isDigit = c0 :: r0 := by
          cases hdw : (d :: t2).dropWhile Char.isDigit with
          | nil => exact absurd hdw hl2
          | cons c0 r0 => exact ⟨c0, r0, rfl⟩
        rw [show d :: (t2 ++ ext) = (d :: t2) ++ ext from rfl]
        rw [takeWhile_append_stop hdrop ext, dropWhile_append_cons hdrop ext, hdrop]
        rfl
      · rw [if_neg hc] at h
        rw [if_neg hc]
        simp only [Prod.mk.injEq] at h
        obtain ⟨rfl, rfl⟩ := h
        simp

lemma expSplit_append (l2 ext : List Char) (b1 b2 : Bool) (ds r : List Char)
    (h : expSplit l2 = (b1, b2, ds, r)) (hs : numSafe r) :
    expSplit (l2 ++ ext) = (b1, b2, ds, r ++ ext) := by
  obtain ⟨hne, hdot, he1, he2, hp1, hp2, hp3, hp4⟩ := hs
  cases l2 with
  | nil =>
    replace h : ((false, false, [], []) : Bool × Bool × List Char × List Char) = (b1, b2, ds, r) := h
    have hr : ([] : List Char) = r := congrArg (fun q => q.2.2.2) h
    exact absurd hr.symm hne
  | cons e t =>
    cases t with
    | nil =>
      replace h : ((false, false, [], [e]) : Bool × Bool × List Char × List Char) = (b1, b2, ds, r) := h
      obtain ⟨rfl, rfl, rfl, rfl⟩ : false = b1 ∧ false = b2 ∧ ([] : List Char) = ds ∧ [e] = r :=
        ⟨congrArg (fun q => q.1) h, congrArg (fun q => q.2.1) h,
         congrArg (fun q => q.2.2.1) h, congrArg (fun q => q.2.2.2) h⟩
      have hxe : ¬(e = 'e' ∨ e = 'E') := by
        rintro (rfl | rfl)
        · exact he1 rfl
        · exact he2 rfl
      cases ext with
      | nil => simp [expSplit]
      | cons y ys =>
        show (if e = 'e' ∨ e = 'E' then _ else (false, false, [], e :: y :: ys)) =
          (false, false, [], [e] ++ (y :: ys))
        rw [if_neg hxe]
        rfl
    | cons s1 rest2 =>
      cases rest2 with
      | nil =>
        replace h : (if e = 'e' ∨ e = 'E' then
            (if s1 = '+' ∨ s1 = '-' then ((false, false, [], [e, s1]) : Bool × Bool × List Char × List Char)
             else if s1.isDigit then
               (true, false, [s1].takeWhile Char.isDigit, [s1].dropWhile Char.isDigit)
             else (false, false, [], [e, s1]))
          else (false, false, [], [e, s1])) = (b1, b2, ds, r) := h
        show (if e = 'e' ∨ e = 'E' then
            (if s1 = '+' ∨ s1 = '-' then
              (match ([] : List Char) ++ ext with
               | d :: _ =>
                 if d.isDigit then
                   (true, decide (s1 = '-'), (([] : List Char) ++ ext).takeWhile Char.isDigit,
                     (([] : List Char) ++ ext).dropWhile Char.isDigit)
                 else (false, false, [], e :: s1 :: (([] : List Char) ++ ext))
               | [] => ((false, false, [], e :: s1 :: (([] : List Char) ++ ext)) : Bool × Bool × List Char × List Char))
            else if s1.isDigit then
              (true, false, (s1 :: (([] : List Char) ++ ext)).takeWhile Char.isDigit,
                (s1 :: (([] : List Char) ++ ext)).dropWhile Char.isDigit)
            else (false, false, [], e :: s1 :: (([] : List Char) ++ ext)))
          else (false, false, [], e :: s1 :: (([] : List Char) ++ ext))) = (b1, b2, ds, r ++ ext)
        by_cases hee : e = 'e' ∨ e = 'E'
        · rw [if_pos hee] at h
          rw [if_pos hee]
          by_cases hsg : s1 = '+' ∨ s1 = '-'
          · exfalso
            rw [if_pos hsg] at h
            have hr : r = [e, s1] := (congrArg (fun q => q.2.2.2) h).symm
            rcases hee with rfl | rfl <;> rcases hsg with rfl | rfl
            · exact hp1 (by rw [hr])
            · exact hp2 (by rw [hr])
            · exact hp3 (by rw [hr])
            · exact hp4 (by rw [hr])
          · rw [if_neg hsg] at h
            rw [if_neg hsg]
            by_cases hd1 : s1.isDigit = true
            · rw [if_pos hd1] at h
              rw [if_pos hd1]
              obtain ⟨rfl, rfl, rfl, rfl⟩ : true = b1 ∧ false = b2 ∧
                  [s1].takeWhile Char.isDigit = ds ∧ [s1].dropWhile Char.isDigit = r :=
                ⟨congrArg (fun q => q.1) h, congrArg (fun q => q.2.1) h,
                 congrArg (fun q => q.2.2.1) h, congrArg (fun q => q.2.2.2) h⟩
              have hdw : [s1].dropWhile Char.isDigit = [] := by
                simp [List.dropWhile, hd1]
              exact absurd hdw hne
            · rw [if_neg hd1] at h
              rw [if_neg hd1]
              obtain ⟨rfl, rfl, rfl, rfl⟩ : false = b1 ∧ false = b2 ∧ ([] : List Char) = ds ∧
                  [e, s1] = r :=
                ⟨congrArg (fun q => q.1) h, congrArg (fun q => q.2.1) h,
                 congrArg (fun q => q.2.2.1) h, congrArg (fun q => q.2.2.2) h⟩
              rfl
        · rw [if_neg hee] at h
          rw [if_neg hee]
          obtain ⟨rfl, rfl, rfl, rfl⟩ : false = b1 ∧ false = b2 ∧ ([] : List Char) = ds ∧
              [e, s1] = r :=
            ⟨congrArg (fun q => q.1) h, congrArg (fun q => q.2.1) h,
             congrArg (fun q => q.2.2.1) h, congrArg (fun q => q.2.2.2) h⟩
          rfl
      | cons d t =>
        replace h : (if e = 'e' ∨ e = 'E' then
            (if s1 = '+' ∨ s1 = '-' then
              (if d.isDigit then
                 (true, decide (s1 = '-'), (d :: t).takeWhile Char.isDigit, (d :: t).dropWhile Char.isDigit)
               else ((false, false, [], e :: s1 :: d :: t) : Bool × Bool × List Char × List Char))
            else if s1.isDigit then
              (true, false, (s1 :: d :: t).takeWhile Char.isDigit, (s1 :: d :: t).dropWhile Char.isDigit)
            else (false, false, [], e :: s1 :: d :: t))
          else (false, false, [], e :: s1 :: d :: t)) = (b1, b2, ds, r) := h
        show (if e = 'e' ∨ e = 'E' then
            (if s1 = '+' ∨ s1 = '-' then
              (if d.isDigit then
                 (true, decide (s1 = '-'), (d :: (t ++ ext)).takeWhile Char.isDigit,
                   (d :: (t ++ ext)).dropWhile Char.isDigit)
               else ((false, false, [], e :: s1 :: d :: (t ++ ext)) : Bool × Bool × List Char × List Char))
            else if s1.isDigit then
              (true, false, (s1 :: d :: (t ++ ext)).takeWhile Char.isDigit,
                (s1 :: d :: (t ++ ext)).dropWhile Char.isDigit)
            else (false, false, [], e :: s1 :: d :: (t ++ ext)))
          else (false, false, [], e :: s1 :: d :: (t ++ ext))) = (b1, b2, ds, r ++ ext)
        by_cases hee : e = 'e' ∨ e = 'E'
        · rw [if_pos hee] at h
          rw [if_pos hee]
          by_cases hsg : s1 = '+' ∨ s1 = '-'
          · rw [if_pos hsg] at h
            rw [if_pos hsg]
            by_cases hd : d.isDigit = true
            · rw [if_pos hd] at h
              rw [if_pos hd]
              obtain ⟨rfl, rfl, rfl, rfl⟩ : true = b1 ∧ decide (s1 = '-') = b2 ∧
                  (d :: t).takeWhile Char.isDigit = ds ∧ (d :: t).dropWhile Char.isDigit = r :=
                ⟨congrArg (fun q => q.1) h, congrArg (fun q => q.2.1) h,
                 congrArg (fun q => q.2.2.1) h, congrArg (fun q => q.2.2.2) h⟩
              obtain ⟨c0, r0, hdrop⟩ : ∃ c0 r0, (d :: t).dropWhile Char.isDigit = c0 :: r0 := by
                cases hdw : (d :: t).dropWhile Char.isDigit with
                | nil => exact absurd hdw hne
                | cons c0 r0 => exact ⟨c0, r0, rfl⟩
              rw [show d :: (t ++ ext) = (d :: t) ++ ext from rfl]
              rw [takeWhile_append_stop hdrop ext, dropWhile_append_cons hdrop ext, hdrop]
              rfl
            · rw [if_neg hd] at h
              rw [if_neg hd]
              obtain ⟨rfl, rfl, rfl, rfl⟩ : false = b1 ∧ false = b2 ∧ ([] : List Char) = ds ∧
                  e :: s1 :: d :: t = r :=
                ⟨congrArg (fun q => q.1) h, congrArg (fun q => q.2.1) h,
                 congrArg (fun q => q.2.2.1) h, congrArg (fun q => q.2.2.2) h⟩
              rfl
          · rw [if_neg hsg] at h
            rw [if_neg hsg]
            by_cases hd1 : s1.isDigit = true
            · rw [if_pos hd1] at h
              rw [if_pos hd1]
              obtain ⟨rfl, rfl, rfl, rfl⟩ : true = b1 ∧ false = b2 ∧
                  (s1 :: d :: t).takeWhile Char.isDigit = ds ∧ (s1 :: d :: t).dropWhile Char.isDigit = r :=
                ⟨congrArg (fun q => q.1) h, congrArg (fun q => q.2.1) h,
                 congrArg (fun q => q.2.2.1) h, congrArg (fun q => q.2.2.2) h⟩
              obtain ⟨c0, r0, hdrop⟩ : ∃ c0 r0, (s1 :: d :: t).dropWhile Char.isDigit = c0 :: r0 := by
                cases hdw : (s1 :: d :: t).dropWhile Char.isDigit with
                | nil => exact absurd hdw hne
                | cons c0 r0 => exact ⟨c0, r0, rfl⟩
              rw [show s1 :: d :: (t ++ ext) = (s1 :: d :: t) ++ ext from rfl]
              rw [takeWhile_append_stop hdrop ext, dropWhile_append_cons hdrop ext, hdrop]
              rfl
            · rw [if_neg hd1] at h
              rw [if_neg hd1]
              obtain ⟨rfl, rfl, rfl, rfl⟩ : false = b1 ∧ false = b2 ∧ ([] : List Char) = ds ∧
                  e :: s1 :: d :: t = r :=
                ⟨congrArg (fun q => q.1) h, congrArg (fun q => q.2.1) h,
                 congrArg (fun q => q.2.2.1) h, congrArg (fun q => q.2.2.2) h⟩
              rfl
        · rw [if_neg hee] at h
          rw [if_neg hee]
          obtain ⟨rfl, rfl, rfl, rfl⟩ : false = b1 ∧ false = b2 ∧ ([] : List Char) = ds ∧
              e :: s1 :: d :: t = r :=
            ⟨congrArg (fun q => q.1) h, congrArg (fun q => q.2.1) h,
             congrArg (fun q => q.2.2.1) h, congrArg (fun q => q.2.2.2) h⟩
          rfl

lemma numParts_append (r1 ext : List Char)
    (hs : numSafe (expSplit (fracSplit r1).2).2.2.2) :
    fracSplit (r1 ++ ext) = ((fracSplit r1).1, (fracSplit r1).2 ++ ext) ∧
    expSplit ((fracSplit r1).2 ++ ext) =
      ((expSplit (fracSplit r1).2).1, (expSplit (fracSplit r1).2).2.1,
       (expSplit (fracSplit r1).2).2.2.1, (expSplit (fracSplit r1).2).2.2.2 ++ ext) := by
  have hl2 : (fracSplit r1).2 ≠ [] := by
    intro he
    rw [he] at hs
    exact hs.1 rfl
  have hdot : r1 ≠ ['.'] := by
    intro he
    rw [he] at hs
    exact hs.2.1 rfl
  exact ⟨fracSplit_append r1 ext _ _ rfl hdot hl2,
    expSplit_append _ ext _ _ _ _ rfl hs⟩

lemma numCore_append (neg : Bool) (l : List Char) (j : Json) (r ext : List Char)
    (h : numCore neg l = .ok (j, r)) (hs : numSafe r) :
    numCore neg (l ++ ext) = .ok (j, r ++ ext) := by
  cases l with
  | nil => exact absurd h (by simp [numCore])
  | cons d r1 =>
    rw [show (d :: r1) ++ ext = d :: (r1 ++ ext) from rfl]
    simp only [numCore] at h ⊢
    by_cases h0 : d = '0'
    · rw [if_pos h0] at h ⊢
      simp only [Except.ok.injEq, Prod.mk.injEq] at h
      obtain ⟨rfl, rfl⟩ := h
      obtain ⟨hfr, hex⟩ := numParts_append r1 ext hs
      simp only [hfr, hex]
    · rw [if_neg h0] at h ⊢
      by_cases hd : d.isDigit = true
      · rw [if_pos hd] at h ⊢
        simp only [Except.ok.injEq, Prod.mk.injEq] at h
        obtain ⟨rfl, rfl⟩ := h
        have hrest : (d :: r1).dropWhile Char.isDigit ≠ [] := by
          intro he
          rw [he] at hs
          exact hs.1 rfl
        obtain ⟨c0, r0, hdrop⟩ : ∃ c0 r0, (d :: r1).dropWhile Char.isDigit = c0 :: r0 := by
          cases hdw : (d :: r1).dropWhile Char.isDigit with
          | nil => exact absurd hdw hrest
          | cons c0 r0 => exact ⟨c0, r0, rfl⟩
        rw [show d :: (r1 ++ ext) = (d :: r1) ++ ext from rfl]
        rw [takeWhile_append_stop hdrop ext, dropWhile_append_cons hdrop ext, hdrop]
        rw [show c0 :: (r0 ++ ext) = (c0 :: r0) ++ ext from rfl]
        obtain ⟨hfr, hex⟩ := numParts_append (c0 :: r0) ext (by rw [hdrop] at hs; exact hs)
        simp only [hfr, hex]
      · rw [if_neg hd] at h
        exact absurd h (by simp)

lemma parseNumberTok_append (l : List Char) (j : Json) (r ext : List Char)
    (h : parseNumberTok l = .ok (j, r)) (hs : numSafe r) :
    parseNumberTok (l ++ ext) = .ok (j, r ++ ext) := by
  cases l with
  | nil => exact absurd h (by simp [parseNumberTok])
  | cons c rest =>
    rw [show (c :: rest) ++ ext = c :: (rest ++ ext) from rfl]
    simp only [parseNumberTok] at h ⊢
    by_cases hneg : c = '-'
    · rw [if_pos hneg] at h ⊢
      exact numCore_append true rest j r ext h hs
    · rw [if_neg hneg] at h ⊢
      rw [show c :: (rest ++ ext) = (c :: rest) ++ ext from rfl]
      exact numCore_append false (c :: rest) j r ext h hs

lemma numSafe_of_wsSkip (r : List Char) (c : Char) (rest : List Char)
    (h : jsonWsSkip r = c :: rest) (hc1 : c ≠ '.') (hc2 : c ≠ 'e') (hc3 : c ≠ 'E') :
    numSafe r := by
  refine ⟨?_, ?_, ?_, ?_, ?_, ?_, ?_, ?_⟩ <;> intro he <;> subst he
  · exact absurd h (by simp [jsonWsSkip])
  · replace h : (['.'] : List Char) = c :: rest := h
    exact hc1 (List.head_eq_of_cons_eq h.symm)
  · replace h : (['e'] : List Char) = c :: rest := h
    exact hc2 (List.head_eq_of_cons_eq h.symm)
  · replace h : (['E'] : List Char) = c :: rest := h
    exact hc3 (List.head_eq_of_cons_eq h.symm)
  · replace h : (['e', '+'] : List Char) = c :: rest := h
    exact hc2 (List.head_eq_of_cons_eq h.symm)
  · replace h : (['e', '-'] : List Char) = c :: rest := h
    exact hc2 (List.head_eq_of_cons_eq h.symm)
  · replace h : (['E', '+'] : List Char) = c :: rest := h
    exact hc3 (List.head_eq_of_cons_eq h.symm)
  · replace h : (['E', '-'] : List Char) = c :: rest := h
    exact hc3 (List.head_eq_of_cons_eq h.symm)

lemma parseValue_ws_nil (f : Nat) (l : List Char) (h : jsonWsSkip l = []) :
    ∃ e, parseValue f l = .error e := by
  cases f with
  | zero => exact ⟨.noFuel, rfl⟩
  | succ g =>
    refine ⟨.expectingValue, ?_⟩
    simp only [parseValue, h]

lemma parseElems_ws_nil (f : Nat) (l : List Char) (acc : List Json) (h : jsonWsSkip l = []) :
    ∃ e, parseElems f l acc = .error e := by
  cases f with
  | zero => exact ⟨.noFuel, rfl⟩
  | succ g =>
    obtain ⟨e, he⟩ := parseValue_ws_nil g l h
    refine ⟨e, ?_⟩
    simp only [parseElems, he]

/-- Extension stability for all scanners, with fuel monotonicity folded
in: any prefix a scanner accepts is accepted with the same value when more
text follows its remainder, provided the remainder does not end inside a
number lookahead (for `parseValue`) -- which the callers' delimiter checks
guarantee. -/
theorem parseExtend : ∀ fuel : Nat,
    (∀ f2 l v r ext, fuel ≤ f2 → parseValue fuel l = .ok (v, r) → numSafe r →
      parseValue f2 (l ++ ext) = .ok (v, r ++ ext)) ∧
    (∀ f2 l v r ext, fuel ≤ f2 → parseObjectBody fuel l = .ok (v, r) →
      parseObjectBody f2 (l ++ ext) = .ok (v, r ++ ext)) ∧
    (∀ f2 l acc v r ext, fuel ≤ f2 → parseMembers fuel l acc = .ok (v, r) →
      parseMembers f2 (l ++ ext) acc = .ok (v, r ++ ext)) ∧
    (∀ f2 l v r ext, fuel ≤ f2 → parseArrayBody fuel l = .ok (v, r) →
      parseArrayBody f2 (l ++ ext) = .ok (v, r ++ ext)) ∧
    (∀ f2 l acc v r ext, fuel ≤ f2 → parseElems fuel l acc = .ok (v, r) →
      parseElems f2 (l ++ ext) acc = .ok (v, r ++ ext)) := by
  intro fuel
  induction fuel with
  | zero =>
    exact ⟨fun f2 l v r ext hle h _ => absurd h (by simp [parseValue]),
           fun f2 l v r ext hle h => absurd h (by simp [parseObjectBody]),
           fun f2 l acc v r ext hle h => absurd h (by simp [parseMembers]),
           fun f2 l v r ext hle h => absurd h (by simp [parseArrayBody]),
           fun f2 l acc v r ext hle h => absurd h (by simp [parseElems])⟩
  | succ g ih =>
    obtain ⟨ihV, ihO, ihM, ihA, ihE⟩ := ih
    refine ⟨?_, ?_, ?_, ?_, ?_⟩
    · -- parseValue
      intro f2 l v r ext hle h hs
      obtain ⟨g2, rfl⟩ : ∃ g2, f2 = g2 + 1 := ⟨f2 - 1, by omega⟩
      have hg2 : g ≤ g2 := by omega
      cases hws : jsonWsSkip l with
      | nil => simp [parseValue, hws] at h
      | cons c rest =>
        have hws2 : jsonWsSkip (l ++ ext) = c :: (rest ++ ext) := dropWhile_append_cons hws ext
        simp only [parseValue, hws] at h
        simp only [parseValue, hws2]
        by_cases h1 : c = '{'
        · rw [if_pos h1] at h ⊢
          exact ihO g2 rest v r ext hg2 h
        · rw [if_neg h1] at h ⊢
          by_cases h2 : c = '['
          · rw [if_pos h2] at h ⊢
            exact ihA g2 rest v r ext hg2 h
          · rw [if_neg h2] at h ⊢
            by_cases h3 : c = '"'
            · rw [if_pos h3] at h ⊢
              cases hsb : strBody [] rest with
              | error e2 => rw [hsb] at h; exact absurd h (by simp)
              | ok p =>
                obtain ⟨s, r1⟩ := p
                rw [hsb] at h
                replace h : (Except.ok (Json.str (String.mk s), r1) :
                    Except JErr (Json × List Char)) = .ok (v, r) := h
                simp only [Except.ok.injEq, Prod.mk.injEq] at h
                obtain ⟨rfl, rfl⟩ := h
                rw [strBody_append ext rest.length rest le_rfl [] s r1 hsb]
            · rw [if_neg h3] at h ⊢
              by_cases h4 : c = 't'
              · rw [if_pos h4] at h ⊢
                match rest, h with
                | [], h => exact absurd h (by simp)
                | [c1], h => exact absurd h (by simp)
                | [c1, c2], h => exact absurd h (by simp)
                | c1 :: c2 :: c3 :: rr, h =>
                  replace h : (if c1 = 'r' ∧ c2 = 'u' ∧ c3 = 'e' then
                      (Except.ok (Json.bool true, rr) : Except JErr (Json × List Char))
                    else .error .expectingValue) = .ok (v, r) := h
                  show (if c1 = 'r' ∧ c2 = 'u' ∧ c3 = 'e' then
                      (Except.ok (Json.bool true, rr ++ ext) : Except JErr (Json × List Char))
                    else .error .expectingValue) = .ok (v, r ++ ext)
                  by_cases hlit : c1 = 'r' ∧ c2 = 'u' ∧ c3 = 'e'
                  · rw [if_pos hlit] at h
                    rw [if_pos hlit]
                    simp only [Except.ok.injEq, Prod.mk.injEq] at h
                    obtain ⟨rfl, rfl⟩ := h
                    rfl
                  · rw [if_neg hlit] at h
                    exact absurd h (by simp)
              · rw [if_neg h4] at h ⊢
                by_cases h5 : c = 'f'
                · rw [if_pos h5] at h ⊢
                  match rest, h with
                  | [], h => exact absurd h (by simp)
                  | [c1], h => exact absurd h (by simp)
                  | [c1, c2], h => exact absurd h (by simp)
                  | [c1, c2, c3], h => exact absurd h (by simp)
                  | c1 :: c2 :: c3 :: c4 :: rr, h =>
                    replace h : (if c1 = 'a' ∧ c2 = 'l' ∧ c3 = 's' ∧ c4 = 'e' then
                        (Except.ok (Json.bool false, rr) : Except JErr (Json × List Char))
                      else .error .expectingValue) = .ok (v, r) := h
                    show (if c1 = 'a' ∧ c2 = 'l' ∧ c3 = 's' ∧ c4 = 'e' then
                        (Except.ok (Json.bool false, rr ++ ext) : Except JErr (Json × List Char))
                      else .error .expectingValue) = .ok (v, r ++ ext)
                    by_cases hlit : c1 = 'a' ∧ c2 = 'l' ∧ c3 = 's' ∧ c4 = 'e'
                    · rw [if_pos hlit] at h
                      rw [if_pos hlit]
                      simp only [Except.ok.injEq, Prod.mk.injEq] at h
                      obtain ⟨rfl, rfl⟩ := h
                      rfl
                    · rw [if_neg hlit] at h
                      exact absurd h (by simp)
                · rw [if_neg h5] at h ⊢
                  by_cases h6 : c = 'n'
                  · rw [if_pos h6] at h ⊢
                    match rest, h with
                    | [], h => exact absurd h (by simp)
                    | [c1], h => exact absurd h (by simp)
                    | [c1, c2], h => exact absurd h (by simp)
                    | c1 :: c2 :: c3 :: rr, h =>
                      replace h : (if c1 = 'u' ∧ c2 = 'l' ∧ c3 = 'l' then
                          (Except.ok (Json.null, rr) : Except JErr (Json × List Char))
                        else .error .expectingValue) = .ok (v, r) := h
                      show (if c1 = 'u' ∧ c2 = 'l' ∧ c3 = 'l' then
                          (Except.ok (Json.null, rr ++ ext) : Except JErr (Json × List Char))
                        else .error .expectingValue) = .ok (v, r ++ ext)
                      by_cases hlit : c1 = 'u' ∧ c2 = 'l' ∧ c3 = 'l'
                      · rw [if_pos hlit] at h
                        rw [if_pos hlit]
                        simp only [Except.ok.injEq, Prod.mk.injEq] at h
                        obtain ⟨rfl, rfl⟩ := h
                        rfl
                      · rw [if_neg hlit] at h
                        exact absurd h (by simp)
                  · rw [if_neg h6] at h ⊢
                    by_cases h7 : c = '-' ∨ c.isDigit = true
                    · rw [if_pos h7] at h ⊢
                      rw [show c :: (rest ++ ext) = (c :: rest) ++ ext from rfl]
                      exact parseNumberTok_append (c :: rest) v r ext h hs
                    · rw [if_neg h7] at h
                      exact absurd h (by simp)
    · -- parseObjectBody
      intro f2 l v r ext hle h
      obtain ⟨g2, rfl⟩ : ∃ g2, f2 = g2 + 1 := ⟨f2 - 1, by omega⟩
      have hg2 : g ≤ g2 := by omega
      cases hws : jsonWsSkip l with
      | nil => simp [parseObjectBody, hws] at h
      | cons c rest =>
        have hws2 : jsonWsSkip (l ++ ext) = c :: (rest ++ ext) := dropWhile_append_cons hws ext
        simp only [parseObjectBody, hws] at h
        simp only [parseObjectBody, hws2]
        by_cases h1 : c = '}'
        · rw [if_pos h1] at h ⊢
          simp only [Except.ok.injEq, Prod.mk.injEq] at h
          obtain ⟨rfl, rfl⟩ := h
          rfl
        · rw [if_neg h1] at h ⊢
          by_cases h2 : c = '"'
          · rw [if_pos h2] at h ⊢
            exact ihM g2 rest [] v r ext hg2 h
          · rw [if_neg h2] at h
            exact absurd h (by simp)
    · -- parseMembers
      intro f2 l acc v r ext hle h
      obtain ⟨g2, rfl⟩ : ∃ g2, f2 = g2 + 1 := ⟨f2 - 1, by omega⟩
      have hg2 : g ≤ g2 := by omega
      simp only [parseMembers] at h ⊢
      cases hsb : strBody [] l with
      | error e2 => rw [hsb] at h; exact absurd h (by simp)
      | ok p =>
        obtain ⟨k, r1⟩ := p
        rw [hsb] at h
        simp only [] at h
        rw [strBody_append ext l.length l le_rfl [] k r1 hsb]
        simp only []
        cases hws1 : jsonWsSkip r1 with
        | nil => rw [hws1] at h; exact absurd h (by simp)
        | cons c2 r2 =>
          have hws1b : jsonWsSkip (r1 ++ ext) = c2 :: (r2 ++ ext) := dropWhile_append_cons hws1 ext
          rw [hws1] at h
          simp only [] at h
          rw [hws1b]
          simp only []
          by_cases hc2 : c2 = ':'
          · rw [if_pos hc2] at h
            rw [if_pos hc2]
            cases hpv : parseValue g r2 with
            | error e2 => rw [hpv] at h; exact absurd h (by simp)
            | ok q =>
              obtain ⟨v3, r3⟩ := q
              rw [hpv] at h
              simp only [] at h
              cases hws3 : jsonWsSkip r3 with
              | nil => rw [hws3] at h; exact absurd h (by simp)
              | cons c4 r4 =>
                rw [hws3] at h
                simp only [] at h
                have hsafe3 : numSafe r3 := by
                  by_cases hc4a : c4 = ','
                  · exact numSafe_of_wsSkip r3 c4 r4 hws3 (by rw [hc4a]; decide)
                      (by rw [hc4a]; decide) (by rw [hc4a]; decide)
                  · by_cases hc4b : c4 = '}'
                    · exact numSafe_of_wsSkip r3 c4 r4 hws3 (by rw [hc4b]; decide)
                        (by rw [hc4b]; decide) (by rw [hc4b]; decide)
                    · rw [if_neg hc4a, if_neg hc4b] at h
                      exact absurd h (by simp)
                rw [ihV g2 r2 v3 r3 ext hg2 hpv hsafe3]
                simp only []
                have hws3b : jsonWsSkip (r3 ++ ext) = c4 :: (r4 ++ ext) :=
                  dropWhile_append_cons hws3 ext
                rw [hws3b]
                simp only []
                by_cases hc4 : c4 = ','
                · rw [if_pos hc4] at h
                  rw [if_pos hc4]
                  cases hws4 : jsonWsSkip r4 with
                  | nil => rw [hws4] at h; exact absurd h (by simp)
                  | cons c5 r5 =>
                    rw [hws4] at h
                    simp only [] at h
                    have hws4b : jsonWsSkip (r4 ++ ext) = c5 :: (r5 ++ ext) :=
                      dropWhile_append_cons hws4 ext
                    rw [hws4b]
                    simp only []
                    by_cases hc5 : c5 = '"'
                    · rw [if_pos hc5] at h
                      rw [if_pos hc5]
                      exact ihM g2 r5 (acc ++ [(String.mk k, v3)]) v r ext hg2 h
                    · rw [if_neg hc5] at h
                      exact absurd h (by simp)
                · rw [if_neg hc4] at h
                  rw [if_neg hc4]
                  by_cases hc4b : c4 = '}'
                  · rw [if_pos hc4b] at h
                    rw [if_pos hc4b]
                    simp only [Except.ok.injEq, Prod.mk.injEq] at h
                    obtain ⟨rfl, rfl⟩ := h
                    rfl
                  · rw [if_neg hc4b] at h
                    exact absurd h (by simp)
          · rw [if_neg hc2] at h
            exact absurd h (by simp)
    · -- parseArrayBody
      intro f2 l v r ext hle h
      obtain ⟨g2, rfl⟩ : ∃ g2, f2 = g2 + 1 := ⟨f2 - 1, by omega⟩
      have hg2 : g ≤ g2 := by omega
      cases hws : jsonWsSkip l with
      | nil =>
        simp only [parseArrayBody, hws] at h
        obtain ⟨e, he⟩ := parseElems_ws_nil g l [] hws
        rw [he] at h
        exact absurd h (by simp)
      | cons c rest =>
        have hws2 : jsonWsSkip (l ++ ext) = c :: (rest ++ ext) := dropWhile_append_cons hws ext
        simp only [parseArrayBody, hws] at h
        simp only [parseArrayBody, hws2]
        by_cases h1 : c = ']'
        · rw [if_pos h1] at h ⊢
          simp only [Except.ok.injEq, Prod.mk.injEq] at h
          obtain ⟨rfl, rfl⟩ := h
          rfl
        · rw [if_neg h1] at h ⊢
          exact ihE g2 l [] v r ext hg2 h
    · -- parseElems
      intro f2 l acc v r ext hle h
      obtain ⟨g2, rfl⟩ : ∃ g2, f2 = g2 + 1 := ⟨f2 - 1, by omega⟩
      have hg2 : g ≤ g2 := by omega
      simp only [parseElems] at h ⊢
      cases hpv : parseValue g l with
      | error e2 => rw [hpv] at h; exact absurd h (by simp)
      | ok q =>
        obtain ⟨v1, r1⟩ := q
        rw [hpv] at h
        simp only [] at h
        cases hws1 : jsonWsSkip r1 with
        | nil => rw [hws1] at h; exact absurd h (by simp)
        | cons c2 r2 =>
          rw [hws1] at h
          simp only [] at h
          have hsafe1 : numSafe r1 := by
            by_cases hc2a : c2 = ','
            · exact numSafe_of_wsSkip r1 c2 r2 hws1 (by rw [hc2a]; decide)
                (by rw [hc2a]; decide) (by rw [hc2a]; decide)
            · by_cases hc2b : c2 = ']'
              · exact numSafe_of_wsSkip r1 c2 r2 hws1 (by rw [hc2b]; decide)
                  (by rw [hc2b]; decide) (by rw [hc2b]; decide)
              · rw [if_neg hc2a, if_neg hc2b] at h
                exact absurd h (by simp)
          rw [ihV g2 l v1 r1 ext hg2 hpv hsafe1]
          simp only []
          have hws1b : jsonWsSkip (r1 ++ ext) = c2 :: (r2 ++ ext) :=
            dropWhile_append_cons hws1 ext
          rw [hws1b]
          simp only []
          by_cases hc2 : c2 = ','
          · rw [if_pos hc2] at h
            rw [if_pos hc2]
            exact ihE g2 r2 (acc ++ [v1]) v r ext hg2 h
          · rw [if_neg hc2] at h
            rw [if_neg hc2]
            by_cases hc2b : c2 = ']'
            · rw [if_pos hc2b] at h
              rw [if_pos hc2b]
              simp only [Except.ok.injEq, Prod.mk.injEq] at h
              obtain ⟨rfl, rfl⟩ := h
              rfl
            · rw [if_neg hc2b] at h
              exact absurd h (by simp)

lemma jsonWsSkip_cons (c : Char) (t : List Char) :
    jsonWsSkip (c :: t) = if isJsonWs c then jsonWsSkip t else c :: t := by
  simp only [jsonWsSkip, List.dropWhile]
  cases isJsonWs c <;> simp

lemma wsNil_append (l l2 : List Char) (h : jsonWsSkip l = []) :
    jsonWsSkip (l ++ l2) = jsonWsSkip l2 := by
  induction l with
  | nil => rfl
  | cons c t ih =>
    rw [jsonWsSkip_cons] at h
    rw [List.cons_append, jsonWsSkip_cons]
    by_cases hc : isJsonWs c = true
    · rw [if_pos hc] at h
      rw [if_pos hc]
      exact ih h
    · rw [if_neg hc] at h
      exact absurd h (by simp)

/-- A full parse of a brace-opened text is stable under appending more
text: the result is either the same value (when the appended part is
whitespace) or the extra-data error -- never a lexical/truncation error. -/
theorem loads_append_of_ok (tail rest : List Char) (v : Json)
    (h : loads ('{' :: tail) = .ok v) :
    loads (('{' :: tail) ++ rest) = .ok v ∨
    loads (('{' :: tail) ++ rest) = .error .extraData := by
  simp only [loads] at h
  cases hpv : parseValue (3 * ('{' :: tail).length + 3) ('{' :: tail) with
  | error e => rw [hpv] at h; exact absurd h (by simp)
  | ok q =>
    obtain ⟨v0, r⟩ := q
    rw [hpv] at h
    simp only [] at h
    cases hwr : jsonWsSkip r with
    | cons c2 r2 => rw [hwr] at h; exact absurd h (by simp)
    | nil =>
      rw [hwr] at h
      replace h : (Except.ok v0 : Except JErr Json) = .ok v := h
      simp only [Except.ok.injEq] at h
      subst h
      have hlen1 : 3 * ('{' :: tail).length + 3 = (3 * tail.length + 5) + 1 := by
        simp [List.length_cons]; ring
      rw [hlen1] at hpv
      have hws1 : jsonWsSkip ('{' :: tail) = '{' :: tail :=
        jsonWsSkip_cons_nonws '{' tail (by decide)
      simp only [parseValue, hws1] at hpv
      have hExt : parseObjectBody (3 * tail.length + 3 * rest.length + 5) (tail ++ rest) =
          .ok (v0, r ++ rest) :=
        (parseExtend (3 * tail.length + 5)).2.1 (3 * tail.length + 3 * rest.length + 5)
          tail v0 r rest (by omega) hpv
      simp only [loads]
      have hlen2 : 3 * (('{' :: tail) ++ rest).length + 3 =
          (3 * tail.length + 3 * rest.length + 5) + 1 := by
        simp [List.length_append, List.length_cons]; ring
      rw [hlen2]
      have hcons : ('{' :: tail) ++ rest = '{' :: (tail ++ rest) := rfl
      rw [hcons]
      have hws2 : jsonWsSkip ('{' :: (tail ++ rest)) = '{' :: (tail ++ rest) :=
        jsonWsSkip_cons_nonws '{' (tail ++ rest) (by decide)
      simp only [parseValue, hws2]
      rw [hExt]
      show (match jsonWsSkip (r ++ rest) with
        | [] => (Except.ok v0 : Except JErr Json)
        | _ :: _ => .error .extraData) = .ok v0 ∨
        (match jsonWsSkip (r ++ rest) with
        | [] => (Except.ok v0 : Except JErr Json)
        | _ :: _ => .error .extraData) = .error .extraData
      rw [wsNil_append r rest hwr]
      cases jsonWsSkip rest with
      | nil => exact Or.inl rfl
      | cons c3 r3 => exact Or.inr rfl

/-- Under the truncation gate, the partial-structure extraction is dead
code: a prefix of the candidate that parsed on its own would have made the
whole-candidate parse fail with the extra-data error, which the gate
excludes. -/
lemma depthRecover_dead (tl : List Char) (e : JErr)
    (herr : loads ('{' :: tl) = .error e)
    (hgate : looksTruncated e = true) :
    depthRecover ('{' :: tl) = none := by
  unfold depthRecover
  cases hfd : firstDepthZero ('{' :: tl) 0 0 with
  | none => rfl
  | some p =>
    show (if 0 < p then
        match loads (('{' :: tl).take (p + 1)) with
        | .ok v =>
          if hasKey v "sales_order_header" then
            some (if hasKey v "sales_order_details" then v else addEmptyDetails v)
          else none
        | .error _ => none
      else none) = none
    by_cases hp : 0 < p
    · rw [if_pos hp]
      cases hload : loads (('{' :: tl).take (p + 1)) with
      | error e2 => rfl
      | ok v =>
        exfalso
        have htake : ('{' :: tl).take (p + 1) = '{' :: tl.take p := rfl
        rw [htake] at hload
        have hsplit := loads_append_of_ok (tl.take p) (('{' :: tl).drop (p + 1)) v hload
        have hd : ('{' :: tl.take p) ++ ('{' :: tl).drop (p + 1) = '{' :: tl := by
          have hta := List.take_append_drop (p + 1) ('{' :: tl)
          rw [htake] at hta
          exact hta
        rw [hd] at hsplit
        cases hsplit with
        | inl hok => rw [herr] at hok; exact absurd hok (by simp)
        | inr hex =>
          rw [herr] at hex
          have he : e = .extraData := by
            have := congrArg (fun x => match x with
              | Except.error e2 => e2
              | Except.ok _ => JErr.extraData) hex
            exact this
          rw [he] at hgate
          exact absurd hgate (by decide)
    · rw [if_neg hp]

/-- C4 (corrected): when the earlier strategies have failed and the
candidate's parse error looks like a truncation, strategy 5 scans to the
first depth-zero position and attempts to parse exactly that prefix, but
the attempt never succeeds -- a parseable depth-zero prefix would have
produced the extra-data error on the whole candidate, which the truncation
gate excludes -- so strategies 4 and 5 together contribute nothing and the
cascade falls through to the last resort. -/
theorem c4_truncation_recovery (t tl : List Char) (e : JErr)
    (hcand : t.dropWhile (fun c => !(c == '{')) = '{' :: tl)
    (hbc : tryBraceCompletion ('{' :: tl) = none)
    (herr : loads ('{' :: tl) = .error e)
    (hgate : looksTruncated e = true) :
    strat45 t = none := by
  unfold strat45
  rw [hcand]
  rw [if_neg (by simp)]
  rw [hbc]
  show (match loads ('{' :: tl) with
    | .ok v => some v
    | .error e => if looksTruncated e then depthRecover ('{' :: tl) else none) = none
  rw [herr]
  show (if looksTruncated e then depthRecover ('{' :: tl) else none) = none
  rw [hgate]
  show depthRecover ('{' :: tl) = none
  exact depthRecover_dead tl e herr hgate

theorem c4_truncation_recovery_witness :
    ('{' :: "\"a\": \"\x7d\", \"b\":".data).dropWhile (fun c => !(c == '{')) =
      '{' :: "\"a\": \"\x7d\", \"b\":".data ∧
    tryBraceCompletion ('{' :: "\"a\": \"\x7d\", \"b\":".data) = none ∧
    loads ('{' :: "\"a\": \"\x7d\", \"b\":".data) = .error .expectingValue ∧
    looksTruncated .expectingValue = true ∧
    strat45 ('{' :: "\"a\": \"\x7d\", \"b\":".data) = none :=
  ⟨rfl, rfl, rfl, rfl,
    c4_truncation_recovery ('{' :: "\"a\": \"\x7d\", \"b\":".data)
      "\"a\": \"\x7d\", \"b\":".data .expectingValue rfl rfl rfl rfl⟩

/-- On the text `\x7b"a": "\x7d", "b":` every hypothesis of the claim holds --
the text is non-empty, strategies 1 to 4 fail, the parse error is of the
truncation kind, and the depth scan finds a positive depth-zero position
(inside the string literal) -- yet the parser returns the unparsable error
instead of a recovered record with defaulted line items. -/
theorem c4_counterexample :
    pyStrip "\x7b\"a\": \"\x7d\", \"b\":".data = "\x7b\"a\": \"\x7d\", \"b\":".data ∧
    loadsOpt "\x7b\"a\": \"\x7d\", \"b\":".data = none ∧
    strat2 "\x7b\"a\": \"\x7d\", \"b\":".data = none ∧
    strat3 "\x7b\"a\": \"\x7d\", \"b\":".data = none ∧
    tryBraceCompletion "\x7b\"a\": \"\x7d\", \"b\":".data = none ∧
    loads "\x7b\"a\": \"\x7d\", \"b\":".data = .error .expectingValue ∧
    looksTruncated .expectingValue = true ∧
    firstDepthZero "\x7b\"a\": \"\x7d\", \"b\":".data 0 0 = some 7 ∧
    parse_llm_response "\x7b\"a\": \"\x7d\", \"b\":".data =
      .error (.unparsable "\x7b\"a\": \"\x7d\", \"b\":".data) :=
  ⟨rfl, rfl, rfl, rfl, rfl, rfl, rfl, rfl, rfl⟩
